import Mathlib

/-!
Verification development for the drug–disease hypothesis pipeline.

Each Python function of the repository that the properties below talk about is
shallowly embedded as an executable Lean definition:

* floating point numbers are modelled as exact rationals (`ℚ`); every float
  operation the embedded code performs (sum, division, `1/(1+d)`, min/max,
  linear combination) is exact on the values the properties mention;
* Python dicts are modelled as association lists (`List (key × value)`),
  looked up with `List.lookup`; the dicts built by the code have distinct keys;
* Python sets are modelled as duplicate-free lists; all set consumers in the
  embedded code are order-insensitive (cardinality, membership, sorted join),
  so the unspecified iteration order of a Python set cannot leak into results;
* `+inf` results are modelled by `none : Option ℚ`;
* a NumPy `uint16` memmap of shape `(N, N)` is modelled as a row-major
  `List Nat` of length `N*N` together with the bound `N`; the store's point
  lookup takes `Int` indices with NumPy's basic-indexing semantics: a
  negative index in `[-N, 0)` is silently wrapped by adding `N`, and an
  index still outside `[0, N)` raises `IndexError`, modelled as an `Except`
  error.  (The index values fed to the lookup come unchecked from the
  pandas-read gene-index CSV, so negative values are representable.)
-/

namespace DDH

/-- The `uint16` sentinel `numpy.iinfo(numpy.uint16).max` for "no path". -/
def SENT : Nat := 65535

/-! ## Pairwise proximity scorer
(`scripts/annotate_pairs_with_ppi_from_matrix.py`) -/

/-- Embedding of `mean_distance_for_pair` from
`scripts/annotate_pairs_with_ppi_from_matrix.py`.

* `drug_to_genes` / `disease_to_genes`: the dicts built by `build_gene_maps`
  (`dict.get` returning `None` for a missing key is `List.lookup` returning
  `none`);
* `Python`'s `if not genes_d or not genes_s` is true for a missing key or an
  empty list;
* `set(genes_d)` is `List.dedup` (the mean below is insensitive to the order
  in which a Python set iterates);
* the nested `for i in idx_d: row = dist[i]; for j in idx_s: d = int(row[j])`
  loops read the matrix entry for every index combination; `dist` is passed as
  the in-range reading function of the memmap (all indices reaching it come
  from the gene-index file of the matrix, see `DistMatrixStore` below for the
  out-of-range behaviour);
* `float("inf")` is `none` and the final `float(sum(dists)/len(dists))` is
  exact rational division. -/
def mean_distance_for_pair
    (drug_to_genes disease_to_genes : List (String × List String))
    (gene_to_idx : List (String × Nat))
    (dist : Nat → Nat → Nat) (max_val : Nat)
    (drug_id disease_id : String) : Option ℚ :=
  match drug_to_genes.lookup drug_id, disease_to_genes.lookup disease_id with
  | some genes_d, some genes_s =>
    if genes_d.isEmpty || genes_s.isEmpty then none
    else
      let idx_d := genes_d.dedup.filterMap fun g => gene_to_idx.lookup g
      let idx_s := genes_s.dedup.filterMap fun g => gene_to_idx.lookup g
      if idx_d.isEmpty || idx_s.isEmpty then none
      else
        let dists := idx_d.flatMap fun i =>
          (idx_s.map fun j => dist i j).filter fun d => decide (d < max_val)
        if dists.isEmpty then none
        else some ((dists.sum : ℚ) / (dists.length : ℚ))
  | _, _ => none

/-- Embedding of the `proximity_score` transform applied in `annotate_pairs`:
`0.0` for an infinite mean distance, else `1.0 / (1.0 + d)`. -/
def proximity_score (md : Option ℚ) : ℚ :=
  match md with
  | none => 0
  | some d => 1 / (1 + d)

/-- Arithmetic mean of a list of matrix entries, `none` when the list is
empty (the scorer's `+inf`). -/
def listMean (l : List Nat) : Option ℚ :=
  if l.isEmpty then none else some ((l.sum : ℚ) / (l.length : ℚ))

/-- Declarative description, following the spec's words, of the valid pairwise
matrix entries for one (drug-gene-set, disease-gene-set) combination:
deduplicate each gene set, map members to matrix indices dropping genes absent
from the gene-to-index map, read the entry of every index combination, and
discard entries equal to the sentinel. -/
def validEntries (gene_to_idx : List (String × Nat))
    (dist : Nat → Nat → Nat) (max_val : Nat)
    (genes_d genes_s : List String) : List Nat :=
  ((genes_d.dedup.filterMap fun g => gene_to_idx.lookup g).flatMap fun i =>
      (genes_s.dedup.filterMap fun g => gene_to_idx.lookup g).map fun j =>
        dist i j).filter fun d => decide (d < max_val)

/-- The finite distance evidence available to the scorer for one
(drug, disease) pair: the valid entries when both gene sets are present,
nothing otherwise. -/
def finiteEvidence
    (drug_to_genes disease_to_genes : List (String × List String))
    (gene_to_idx : List (String × Nat))
    (dist : Nat → Nat → Nat) (max_val : Nat)
    (drug_id disease_id : String) : List Nat :=
  match drug_to_genes.lookup drug_id, disease_to_genes.lookup disease_id with
  | some genes_d, some genes_s =>
      validEntries gene_to_idx dist max_val genes_d genes_s
  | _, _ => []

/-- The matrix indices of a drug's deduplicated gene set (empty when the drug
is absent from the drug→genes map). -/
def mappedIdx (gene_map : List (String × List String))
    (gene_to_idx : List (String × Nat)) (id_ : String) : List Nat :=
  match gene_map.lookup id_ with
  | some gs => gs.dedup.filterMap fun g => gene_to_idx.lookup g
  | none => []

/-! ### Concrete scorer fixture: drug `D` with targets `{A, B}`, disease `X`
with genes `{B, C}`, finite distances A–B=1, A–C=3, B–B=0, B–C=2. -/

/-- Drug→genes map of the fixture: `D ↦ [A, B]`. -/
def exDrugMap : List (String × List String) := [("D", ["A", "B"])]

/-- Disease→genes map of the fixture: `X ↦ [B, C]`. -/
def exDiseaseMap : List (String × List String) := [("X", ["B", "C"])]

/-- Gene→index map of the fixture: `A ↦ 0`, `B ↦ 1`, `C ↦ 2`. -/
def exGeneIdx : List (String × Nat) := [("A", 0), ("B", 1), ("C", 2)]

/-- Distance matrix of the fixture (symmetric, diagonal 0):
A–B=1, A–C=3, B–C=2. -/
def exDist : Nat → Nat → Nat
  | 0, 1 => 1
  | 1, 0 => 1
  | 0, 2 => 3
  | 2, 0 => 3
  | 1, 2 => 2
  | 2, 1 => 2
  | _, _ => 0

/-- The list of looked-up entries built by the scorer's nested loops is the
declarative `validEntries` list (filtering after flattening equals filtering
inside each row). -/
theorem validEntries_eq_flatMap_filter (gti : List (String × Nat))
    (dist : Nat → Nat → Nat) (maxv : Nat) (gd gs : List String) :
    validEntries gti dist maxv gd gs =
      (gd.dedup.filterMap fun g => gti.lookup g).flatMap fun i =>
        ((gs.dedup.filterMap fun g => gti.lookup g).map fun j => dist i j).filter
          fun d => decide (d < maxv) := by
  rw [validEntries, List.filter_flatMap]

theorem validEntries_nil_left (gti : List (String × Nat))
    (dist : Nat → Nat → Nat) (maxv : Nat) (gd gs : List String)
    (h : gd.dedup.filterMap (fun g => gti.lookup g) = []) :
    validEntries gti dist maxv gd gs = [] := by
  rw [validEntries_eq_flatMap_filter, h, List.flatMap_nil]

theorem validEntries_nil_right (gti : List (String × Nat))
    (dist : Nat → Nat → Nat) (maxv : Nat) (gd gs : List String)
    (h : gs.dedup.filterMap (fun g => gti.lookup g) = []) :
    validEntries gti dist maxv gd gs = [] := by
  rw [validEntries_eq_flatMap_filter, h]
  simp

/-- **C1.** For every (drug, disease) pair whose gene sets are both present
(and non-empty, which is what `if not genes_d or not genes_s` tests), the
proximity scorer deduplicates each gene set, drops genes absent from the
gene-to-index map, reads the matrix entry for every (drug-gene-index,
disease-gene-index) combination, discards entries equal to the sentinel
`65535`, and returns the arithmetic mean of the remaining entries (`listMean`
of the declarative `validEntries` list); in particular, on the fixture (drug
`D` targets `{A,B}`, disease `X` genes `{B,C}`, distances A–B=1, A–C=3, B–B=0,
B–C=2) the result is a mean distance of `3/2 = 1.5` and a proximity score of
`1/(1 + 3/2) = 2/5 = 0.4`. -/
theorem scorer_mean_of_present_gene_sets :
    (∀ (dtg dsg : List (String × List String)) (gti : List (String × Nat))
        (dist : Nat → Nat → Nat) (maxv : Nat) (drug dis : String)
        (gd gs : List String),
        dtg.lookup drug = some gd → gd ≠ [] →
        dsg.lookup dis = some gs → gs ≠ [] →
        mean_distance_for_pair dtg dsg gti dist maxv drug dis =
          listMean (validEntries gti dist maxv gd gs))
    ∧ mean_distance_for_pair exDrugMap exDiseaseMap exGeneIdx exDist SENT "D" "X"
        = some (3 / 2)
    ∧ proximity_score
        (mean_distance_for_pair exDrugMap exDiseaseMap exGeneIdx exDist SENT "D" "X")
        = 2 / 5 := by
  refine ⟨?_, ?_, ?_⟩
  · intro dtg dsg gti dist maxv drug dis gd gs hgd hdne hgs hsne
    have hd : gd.isEmpty = false := by simpa using hdne
    have hs : gs.isEmpty = false := by simpa using hsne
    rw [mean_distance_for_pair, hgd, hgs]
    simp only [hd, hs, Bool.or_self, Bool.false_or, if_false, Bool.or_false]
    by_cases h1 : (gd.dedup.filterMap fun g => gti.lookup g).isEmpty
    · rw [validEntries_nil_left gti dist maxv gd gs
        (List.isEmpty_iff.mp h1)]
      simp [h1, listMean]
    · by_cases h2 : (gs.dedup.filterMap fun g => gti.lookup g).isEmpty
      · rw [validEntries_nil_right gti dist maxv gd gs
          (List.isEmpty_iff.mp h2)]
        simp [h2, listMean]
      · rw [validEntries_eq_flatMap_filter]
        simp [h1, h2, listMean]
  · show (if ([1, 3, 0, 2] : List Nat).isEmpty then none
        else some ((([1, 3, 0, 2] : List Nat).sum : ℚ) /
          (([1, 3, 0, 2] : List Nat).length : ℚ))) = some (3 / 2)
    norm_num
  · show (1 : ℚ) / (1 + (([1, 3, 0, 2] : List Nat).sum : ℚ) /
      (([1, 3, 0, 2] : List Nat).length : ℚ)) = 2 / 5
    norm_num

/-- Witness for C1: the general clause applied to the concrete fixture. -/
theorem scorer_mean_of_present_gene_sets_witness :
    exDrugMap.lookup "D" = some ["A", "B"] ∧ (["A", "B"] : List String) ≠ [] ∧
    exDiseaseMap.lookup "X" = some ["B", "C"] ∧ (["B", "C"] : List String) ≠ [] ∧
    mean_distance_for_pair exDrugMap exDiseaseMap exGeneIdx exDist SENT "D" "X" =
      listMean (validEntries exGeneIdx exDist SENT ["A", "B"] ["B", "C"]) :=
  ⟨by decide, by decide, by decide, by decide,
    scorer_mean_of_present_gene_sets.1 exDrugMap exDiseaseMap exGeneIdx exDist
      SENT "D" "X" ["A", "B"] ["B", "C"] (by decide) (by decide) (by decide)
      (by decide)⟩

/-- **C2.** The proximity scorer returns an infinite mean distance (hence
proximity score `0`) exactly when no finite distance evidence exists
(`finiteEvidence = []` covers: missing or empty gene set, no gene present in
the gene-to-index map, or every looked-up entry equal to the sentinel); it is
a normal return (the embedded function is total).  Moreover when either mapped
index list is empty no matrix access is attempted: the result does not depend
on the matrix at all. -/
theorem scorer_infinity_iff_no_evidence :
    (∀ (dtg dsg : List (String × List String)) (gti : List (String × Nat))
        (dist : Nat → Nat → Nat) (maxv : Nat) (drug dis : String),
        mean_distance_for_pair dtg dsg gti dist maxv drug dis = none ↔
          finiteEvidence dtg dsg gti dist maxv drug dis = [])
    ∧ proximity_score none = 0
    ∧ (∀ (dtg dsg : List (String × List String)) (gti : List (String × Nat))
        (dist dist' : Nat → Nat → Nat) (maxv : Nat) (drug dis : String),
        mappedIdx dtg gti drug = [] ∨ mappedIdx dsg gti dis = [] →
        mean_distance_for_pair dtg dsg gti dist maxv drug dis =
          mean_distance_for_pair dtg dsg gti dist' maxv drug dis) := by
  refine ⟨?_, rfl, ?_⟩
  · intro dtg dsg gti dist maxv drug dis
    rw [mean_distance_for_pair, finiteEvidence]
    cases hgd : dtg.lookup drug with
    | none => simp
    | some gd =>
      cases hgs : dsg.lookup dis with
      | none => simp
      | some gs =>
        dsimp only
        by_cases hd : gd.isEmpty
        · obtain rfl : gd = [] := List.isEmpty_iff.mp hd
          rw [validEntries_nil_left gti dist maxv [] gs (by simp)]
          simp
        · by_cases hs : gs.isEmpty
          · obtain rfl : gs = [] := List.isEmpty_iff.mp hs
            rw [validEntries_nil_right gti dist maxv gd [] (by simp)]
            simp
          · simp only [Bool.not_eq_true] at hd hs
            simp only [hd, hs, Bool.or_self, Bool.false_eq_true, if_false]
            by_cases h1 : (gd.dedup.filterMap fun g => gti.lookup g).isEmpty
            · rw [validEntries_nil_left gti dist maxv gd gs
                (List.isEmpty_iff.mp h1)]
              simp [h1]
            · by_cases h2 : (gs.dedup.filterMap fun g => gti.lookup g).isEmpty
              · rw [validEntries_nil_right gti dist maxv gd gs
                  (List.isEmpty_iff.mp h2)]
                simp [h2]
              · rw [validEntries_eq_flatMap_filter]
                simp only [Bool.not_eq_true] at h1 h2
                simp only [h1, h2, Bool.or_self, Bool.false_eq_true, if_false]
                have key : ∀ (c : Bool) (x : ℚ),
                    ((if c = true then none else some x) = none ↔ c = true) := by
                  intro c x
                  cases c <;> simp
                rw [key]
                exact List.isEmpty_iff
  · intro dtg dsg gti dist dist' maxv drug dis h
    rw [mappedIdx, mappedIdx] at h
    rw [mean_distance_for_pair, mean_distance_for_pair]
    cases hgd : dtg.lookup drug with
    | none => rfl
    | some gd =>
      cases hgs : dsg.lookup dis with
      | none => rfl
      | some gs =>
        rw [hgd, hgs] at h
        dsimp only at h ⊢
        by_cases hd : gd.isEmpty
        · simp [hd]
        · by_cases hs : gs.isEmpty
          · simp [hs]
          · simp only [Bool.not_eq_true] at hd hs
            simp only [hd, hs, Bool.or_self, Bool.false_eq_true, if_false]
            have hidx : ((gd.dedup.filterMap fun g => gti.lookup g).isEmpty ||
                (gs.dedup.filterMap fun g => gti.lookup g).isEmpty) = true := by
              rcases h with h | h <;> rw [h] <;> simp
            rw [if_pos hidx, if_pos hidx]

/-- Witness for C2: the dependence-free clause applied to a fixture whose
drug genes are absent from the gene-to-index map, with two different
matrices. -/
theorem scorer_infinity_iff_no_evidence_witness :
    (mappedIdx [("D", ["A"])] [] "D" = [] ∨
      mappedIdx [("X", ["B"])] [] "X" = []) ∧
    mean_distance_for_pair [("D", ["A"])] [("X", ["B"])] []
        (fun _ _ => 1) SENT "D" "X" =
      mean_distance_for_pair [("D", ["A"])] [("X", ["B"])] []
        (fun _ _ => 2) SENT "D" "X" :=
  ⟨Or.inl (by decide),
    scorer_infinity_iff_no_evidence.2.2 [("D", ["A"])] [("X", ["B"])] []
      (fun _ _ => 1) (fun _ _ => 2) SENT "D" "X" (Or.inl (by decide))⟩

/-! ## Distance matrix store
(`load_distance_matrix` in `scripts/annotate_pairs_with_ppi_from_matrix.py`
opens the row-major `N × N` uint16 binary written by
`scripts/precompute_gene_distance_matrix.py` as a read-only memmap.) -/

/-- The store's failure mode for a lookup outside `[0, N)`. -/
inductive MatrixError where
  | indexOutOfRange
deriving DecidableEq

/-- The opened distance-matrix store: the universe size `N` (taken from the
companion gene-index file) and the row-major entry array of length `N * N`. -/
structure DistMatrixStore where
  n : Nat
  entries : List Nat
deriving DecidableEq

/-- Python/NumPy index resolution: a negative index counts from the end of
the axis, i.e. `N` is added to it. -/
def pyWrap (n : Nat) (i : Int) : Int :=
  if i < 0 then i + n else i

/-- Embedding of a point lookup `dist[i][j]` against the memmapped `(N, N)`
uint16 matrix, with NumPy's basic integer-indexing semantics: a negative
index first gets `N` added (silent wraparound); an index that then lies in
`[0, N)` reads the entry at row-major offset `i * N + j`; anything else
raises `IndexError`.  The indices the program passes come unchecked from
the pandas-read gene-index CSV, hence `Int`. -/
def DistMatrixStore.get (m : DistMatrixStore) (i j : Int) :
    Except MatrixError Nat :=
  if 0 ≤ pyWrap m.n i ∧ pyWrap m.n i < (m.n : Int) ∧
      0 ≤ pyWrap m.n j ∧ pyWrap m.n j < (m.n : Int) then
    .ok (m.entries.getD ((pyWrap m.n i).toNat * m.n + (pyWrap m.n j).toNat) 0)
  else .error .indexOutOfRange

/-- **C4, counterexample.** On a `2 × 2` store, the lookup at row index `-1`
— an index outside `[0, 2)` — does not fail: NumPy silently wraps it to row
`1` and returns that row's entry, contradicting "never silently … returns
… any other value". -/
theorem store_negative_index_wraps_counterexample :
    ¬ (0 ≤ (-1 : Int)) ∧
    DistMatrixStore.get ⟨2, [0, 7, 7, 0]⟩ (-1) 0 = .ok 7 ∧
    (Except.ok 7 : Except MatrixError Nat) ≠ .error .indexOutOfRange :=
  ⟨by decide, rfl, fun h => Except.noConfusion h⟩

/-- **C4, amended.** A matrix-store lookup with a row or column index `≥ N`
or `< -N` fails loudly with `IndexOutOfRange`; an `Ok` result arises only
when both (possibly Python-wrapped) indices land in `[0, N)` and then
carries exactly the row-major entry, never a sentinel or a clamp.  However
a negative index in `[-N, 0)`, although outside `[0, N)`, is silently
wrapped to `index + N` rather than failing; in particular for the
non-negative indices a well-formed gene-index file produces, every
out-of-range lookup does fail loudly. -/
theorem store_lookup_out_of_range_behaviour :
    (∀ (m : DistMatrixStore) (i j : Int),
        ((m.n : Int) ≤ i ∨ (m.n : Int) ≤ j ∨ i < -(m.n : Int) ∨
          j < -(m.n : Int)) →
        m.get i j = .error .indexOutOfRange)
    ∧ (∀ (m : DistMatrixStore) (i j : Int) (v : Nat), m.get i j = .ok v →
        0 ≤ pyWrap m.n i ∧ pyWrap m.n i < (m.n : Int) ∧
        0 ≤ pyWrap m.n j ∧ pyWrap m.n j < (m.n : Int) ∧
        v = m.entries.getD
          ((pyWrap m.n i).toNat * m.n + (pyWrap m.n j).toNat) 0)
    ∧ (∀ (m : DistMatrixStore) (i j : Nat), m.n ≤ i ∨ m.n ≤ j →
        m.get (i : Int) (j : Int) = .error .indexOutOfRange) := by
  have hfail : ∀ (m : DistMatrixStore) (i j : Int),
      ((m.n : Int) ≤ i ∨ (m.n : Int) ≤ j ∨ i < -(m.n : Int) ∨
        j < -(m.n : Int)) →
      m.get i j = .error .indexOutOfRange := by
    intro m i j h
    have hng : ¬ (0 ≤ pyWrap m.n i ∧ pyWrap m.n i < (m.n : Int) ∧
        0 ≤ pyWrap m.n j ∧ pyWrap m.n j < (m.n : Int)) := by
      rw [pyWrap, pyWrap]
      split_ifs <;> omega
    rw [DistMatrixStore.get, if_neg hng]
  refine ⟨hfail, ?_, ?_⟩
  · intro m i j v h
    rw [DistMatrixStore.get] at h
    by_cases hb : 0 ≤ pyWrap m.n i ∧ pyWrap m.n i < (m.n : Int) ∧
        0 ≤ pyWrap m.n j ∧ pyWrap m.n j < (m.n : Int)
    · rw [if_pos hb] at h
      refine ⟨hb.1, hb.2.1, hb.2.2.1, hb.2.2.2, ?_⟩
      cases h
      rfl
    · rw [if_neg hb] at h
      exact absurd h (by simp)
  · intro m i j h
    apply hfail
    rcases h with h | h
    · exact Or.inl (by exact_mod_cast h)
    · exact Or.inr (Or.inl (by exact_mod_cast h))

/-- Witness for C4 (amended): a `2 × 2` store queried at row `5` fails, and
queried in range returns the stored entry. -/
theorem store_lookup_out_of_range_behaviour_witness :
    ((2 : Int) ≤ 5 ∨ (2 : Int) ≤ 0 ∨ (5 : Int) < -2 ∨ (0 : Int) < -2) ∧
    DistMatrixStore.get ⟨2, [0, 7, 7, 0]⟩ 5 0 = .error .indexOutOfRange ∧
    DistMatrixStore.get ⟨2, [0, 7, 7, 0]⟩ 0 1 = .ok 7 :=
  ⟨Or.inl (by decide),
    store_lookup_out_of_range_behaviour.1 ⟨2, [0, 7, 7, 0]⟩ 5 0
      (Or.inl (by decide)),
    rfl⟩

/-! ## Score combiner
(`combine_overlap_and_proximity` in `src/ddh/scoring.py`, plus the
script-level `add_combined_score` in
`scripts/annotate_pairs_with_ppi_from_matrix.py`.) -/

/-- A row of a proximity table (`compute_network_proximity` /
`annotate_pairs` output): mean distance (`none` = `inf`) and proximity
score. -/
structure ProxRow where
  drug_id : String
  disease_id : String
  mean_distance : Option ℚ
  proximity_score : ℚ
deriving DecidableEq

/-- A row of an overlap table (`compute_overlap_table` /
`compute_overlap_table_fast` output). -/
structure OverlapRow where
  drug_id : String
  disease_id : String
  n_overlap : Nat
  overlapping_genes : String
  jaccard : ℚ
deriving DecidableEq, Repr

/-- A row of the outer join of a proximity table and an overlap table on
`(drug_id, disease_id)`: a field is `none` when the row comes from only one
side (pandas `NaN`). -/
structure JoinedRow where
  drug_id : String
  disease_id : String
  n_overlap : Option ℚ
  proximity_score : Option ℚ
deriving DecidableEq

/-- Embedding of `pd.merge(proximity_df, overlap_df, on=[drug_id,
disease_id], how="outer")` for key-unique inputs: every proximity row,
joined with its overlap row when one matches, followed by the unmatched
overlap rows. -/
def outerJoin (prox : List ProxRow) (ov : List OverlapRow) : List JoinedRow :=
  (prox.map fun p =>
    { drug_id := p.drug_id, disease_id := p.disease_id,
      proximity_score := some p.proximity_score,
      n_overlap := (ov.find? fun o =>
        o.drug_id == p.drug_id && o.disease_id == p.disease_id).map
        fun o => (o.n_overlap : ℚ) })
  ++ ((ov.filter fun o => !(prox.any fun p =>
        p.drug_id == o.drug_id && p.disease_id == o.disease_id)).map
      fun o =>
        { drug_id := o.drug_id, disease_id := o.disease_id,
          n_overlap := some (o.n_overlap : ℚ), proximity_score := none })

/-- `pandas.Series.max`: `none` (NaN) on an empty column. -/
def seriesMax (l : List ℚ) : Option ℚ :=
  match l with
  | [] => none
  | x :: xs => some (xs.foldl max x)

/-- `pandas.Series.min`: `none` (NaN) on an empty column. -/
def seriesMin (l : List ℚ) : Option ℚ :=
  match l with
  | [] => none
  | x :: xs => some (xs.foldl min x)

/-- The batch maximum of the joined `n_overlap` column after `fillna(0)`;
`0 > 0` is false for an empty frame (pandas `NaN > 0`), modelled by
defaulting to `0`. -/
def maxOverlap (prox : List ProxRow) (ov : List OverlapRow) : ℚ :=
  match seriesMax ((outerJoin prox ov).map fun r => r.n_overlap.getD 0) with
  | some m => m
  | none => 0

/-- An output row of the score combiner (the columns it computes; the
untouched `overlapping_genes`, `jaccard` and `mean_distance` columns are
carried through unchanged by the code and omitted here). -/
structure CombinedRow where
  drug_id : String
  disease_id : String
  n_overlap : ℚ
  norm_overlap : ℚ
  proximity_score : ℚ
  combined_score : ℚ
deriving DecidableEq

/-- Embedding of `combine_overlap_and_proximity` (`src/ddh/scoring.py`):
outer join, `n_overlap` fillna 0, `norm_overlap = n_overlap / max_overlap`
when the batch maximum is positive (else 0), `proximity_score` fillna 0, and
`combined_score = alpha * norm_overlap + beta * proximity_score`.  The final
`sort_values` only reorders rows and is not part of the properties below. -/
def combine_overlap_and_proximity (prox : List ProxRow) (ov : List OverlapRow)
    (alpha beta : ℚ) : List CombinedRow :=
  let df := outerJoin prox ov
  let maxOv := maxOverlap prox ov
  df.map fun r =>
    let nov := r.n_overlap.getD 0
    let norm := if 0 < maxOv then nov / maxOv else 0
    let pr := r.proximity_score.getD 0
    { drug_id := r.drug_id, disease_id := r.disease_id, n_overlap := nov,
      norm_overlap := norm, proximity_score := pr,
      combined_score := alpha * norm + beta * pr }

/-- Min-max normalization of a column as `add_combined_score` performs it:
`(x - min) / (max - min)` when `max > min`, else the all-zero column. -/
def minMaxNorm (l : List ℚ) : List ℚ :=
  match seriesMin l, seriesMax l with
  | some mn, some mx =>
      if mn < mx then l.map fun x => (x - mn) / (mx - mn)
      else l.map fun _ => 0
  | _, _ => l.map fun _ => 0

/-- Embedding of `add_combined_score`
(`scripts/annotate_pairs_with_ppi_from_matrix.py`) on the numeric columns it
reads, for a frame that has an `n_overlap` column: rows are
`(n_overlap, proximity_score)` and the result is the `combined_score`
column, `alpha * minmax(n_overlap) + beta * minmax(proximity_score)` —
the script min-max-normalizes the proximity column too. -/
def add_combined_score (df : List (ℚ × ℚ)) (alpha beta : ℚ) : List ℚ :=
  let provNorm := minMaxNorm (df.map Prod.snd)
  let ovNorm := minMaxNorm (df.map Prod.fst)
  ovNorm.zipWith (fun o p => alpha * o + beta * p) provNorm

/-- Proximity batch where both pairs have the same positive overlap count. -/
def exProxC3 : List ProxRow :=
  [⟨"D1", "X1", some 1, 1 / 2⟩, ⟨"D2", "X2", some 1, 1 / 2⟩]

/-- Overlap batch with `n_overlap = 2` for both pairs (`max = min = 2`). -/
def exOvC3 : List OverlapRow :=
  [⟨"D1", "X1", 2, "G1", 1 / 2⟩, ⟨"D2", "X2", 2, "G2", 1 / 2⟩]

/-- **C3, counterexample.** On a batch whose `n_overlap` column is `[2, 2]`
(maximum equals minimum), the combiner normalizes every row to `2/2 = 1`,
whereas min-max normalization with the claimed degenerate rule maps every
row to `0`; the two disagree. -/
theorem combiner_minmax_counterexample :
    (combine_overlap_and_proximity exProxC3 exOvC3 1 0).map
        (fun r => r.norm_overlap) = [2 / 2, 2 / 2] ∧
    minMaxNorm ((outerJoin exProxC3 exOvC3).map fun r => r.n_overlap.getD 0)
        = [0, 0] ∧
    ((2 : ℚ) / 2) ≠ 0 := by
  refine ⟨rfl, ?_, by norm_num⟩
  show minMaxNorm [2, 2] = [0, 0]
  simp [minMaxNorm, seriesMin, seriesMax]

/-- **C3, amended.** The score combiner `combine_overlap_and_proximity`
normalizes `n_overlap` by dividing each (0-filled) value by the batch
maximum — so in the degenerate all-equal case the rows map to `1` when the
common value is positive and to `0` only when the maximum is not positive —
and computes `combined_score = alpha * norm_overlap + beta *
proximity_score` with the proximity score entering unnormalized; the
script-level combiner `add_combined_score`, by contrast, min-max-normalizes
both columns, including proximity (`[1/4, 3/4]` becomes `[0, 1]`). -/
theorem combiner_divides_overlap_by_max :
    (∀ (prox : List ProxRow) (ov : List OverlapRow) (alpha beta : ℚ),
        ∀ r ∈ combine_overlap_and_proximity prox ov alpha beta,
        r.norm_overlap =
            (if 0 < maxOverlap prox ov then r.n_overlap / maxOverlap prox ov
             else 0) ∧
        r.combined_score = alpha * r.norm_overlap + beta * r.proximity_score)
    ∧ add_combined_score [(0, 1 / 4), (0, 3 / 4)] 0 1 = [0, 1] := by
  constructor
  · intro prox ov alpha beta r hr
    rw [combine_overlap_and_proximity] at hr
    simp only [List.mem_map] at hr
    obtain ⟨j, _, rfl⟩ := hr
    exact ⟨rfl, rfl⟩
  · simp [add_combined_score, minMaxNorm, seriesMin, seriesMax]
    norm_num

/-- Witness for C3 (amended): the per-row clause applied to the first row of
the concrete batch. -/
theorem combiner_divides_overlap_by_max_witness :
    ∃ r ∈ combine_overlap_and_proximity exProxC3 exOvC3 1 0,
      r.norm_overlap =
          (if 0 < maxOverlap exProxC3 exOvC3 then
            r.n_overlap / maxOverlap exProxC3 exOvC3 else 0) ∧
      r.combined_score = 1 * r.norm_overlap + 0 * r.proximity_score := by
  refine ⟨(combine_overlap_and_proximity exProxC3 exOvC3 1 0).head (by decide),
    List.head_mem _, ?_⟩
  exact combiner_divides_overlap_by_max.1 exProxC3 exOvC3 1 0 _ (List.head_mem _)

/-! ## Graph builder (`build_ppi_graph` in `src/ddh/graphs.py`) -/

/-- The `GeneGeneInteraction` record of `src/ddh/data_models.py` (weights
modelled as exact rationals). -/
structure GeneGeneInteraction where
  gene1_id : String
  gene2_id : String
  weight : Option ℚ := none
  source : String := "ppi"
deriving DecidableEq

/-- Whether two ordered pairs denote the same unordered gene pair. -/
def sameUnordered (p q : String × String) : Bool :=
  (p.1 == q.1 && p.2 == q.2) || (p.1 == q.2 && p.2 == q.1)

/-- A networkx undirected graph restricted to what `build_ppi_graph` builds
and the properties read back: the edge list with the `weight` attribute,
holding at most one entry per unordered pair. -/
structure NXGraph where
  edges : List ((String × String) × ℚ)
deriving DecidableEq

/-- `G.add_edge(a, b, weight=w)`: networkx updates the attribute dict of the
existing edge when the unordered pair is already present (the new weight
overwrites the old), and otherwise inserts a fresh edge. -/
def NXGraph.add_edge (G : NXGraph) (a b : String) (w : ℚ) : NXGraph :=
  if G.edges.any fun e => sameUnordered e.1 (a, b) then
    { edges := G.edges.map fun e =>
        if sameUnordered e.1 (a, b) then (e.1, w) else e }
  else { edges := G.edges ++ [((a, b), w)] }

/-- Embedding of `build_ppi_graph` (`src/ddh/graphs.py`): add every
interaction as an edge, with weight defaulting to `1.0` when absent. -/
def build_ppi_graph (interactions : List GeneGeneInteraction) : NXGraph :=
  interactions.foldl
    (fun G inter =>
      G.add_edge inter.gene1_id inter.gene2_id (inter.weight.getD 1))
    ⟨[]⟩

/-- Number of stored edges for the unordered pair `(a, b)`. -/
def NXGraph.edgeCount (G : NXGraph) (a b : String) : Nat :=
  (G.edges.filter fun e => sameUnordered e.1 (a, b)).length

/-- The `weight` attribute of edge `(a, b)` (`G[a][b]["weight"]`), `none`
when the graph has no such edge. -/
def NXGraph.getWeight (G : NXGraph) (a b : String) : Option ℚ :=
  (G.edges.find? fun e => sameUnordered e.1 (a, b)).map fun e => e.2

theorem sameUnordered_iff (p q : String × String) :
    sameUnordered p q = true ↔
      (p.1 = q.1 ∧ p.2 = q.2) ∨ (p.1 = q.2 ∧ p.2 = q.1) := by
  simp [sameUnordered]

theorem sameUnordered_refl (p : String × String) : sameUnordered p p = true := by
  simp [sameUnordered_iff]

theorem sameUnordered_symm (p q : String × String) :
    sameUnordered p q = sameUnordered q p := by
  rw [Bool.eq_iff_iff, sameUnordered_iff, sameUnordered_iff]
  tauto

theorem sameUnordered_trans {p q r : String × String}
    (h1 : sameUnordered p q = true) (h2 : sameUnordered q r = true) :
    sameUnordered p r = true := by
  rw [sameUnordered_iff] at h1 h2 ⊢
  rcases h1 with ⟨h, h'⟩ | ⟨h, h'⟩ <;> rcases h2 with ⟨g, g'⟩ | ⟨g, g'⟩ <;>
    simp_all

/-- Two equivalent unordered pairs are matched by the same edges. -/
theorem sameUnordered_congr {q q' : String × String}
    (h : sameUnordered q q' = true) (p : String × String) :
    sameUnordered p q = sameUnordered p q' := by
  rw [Bool.eq_iff_iff]
  constructor
  · intro h1
    exact sameUnordered_trans h1 h
  · intro h2
    exact sameUnordered_trans h2 (sameUnordered_symm q q' ▸ h)

/-- `add_edge` sets the weight of the unordered pair it targets and leaves
every other pair's weight unchanged. -/
theorem getWeight_add_edge (G : NXGraph) (a b x1 x2 : String) (w : ℚ) :
    (G.add_edge x1 x2 w).getWeight a b =
      if sameUnordered (x1, x2) (a, b) then some w else G.getWeight a b := by
  rw [NXGraph.add_edge]
  by_cases hany : (G.edges.any fun e => sameUnordered e.1 (x1, x2)) = true
  · rw [if_pos hany, NXGraph.getWeight, NXGraph.getWeight]
    dsimp only
    rw [List.find?_map]
    have hcomp : ((fun e : (String × String) × ℚ => sameUnordered e.1 (a, b)) ∘
        fun e => if sameUnordered e.1 (x1, x2) then (e.1, w) else e) =
        fun e : (String × String) × ℚ => sameUnordered e.1 (a, b) := by
      funext e
      by_cases he : sameUnordered e.1 (x1, x2) <;> simp [he]
    rw [hcomp]
    by_cases hx : sameUnordered (x1, x2) (a, b) = true
    · rw [if_pos hx]
      have hsome : ∃ e, G.edges.find? (fun e => sameUnordered e.1 (a, b))
          = some e := by
        rw [← Option.isSome_iff_exists, List.find?_isSome]
        rw [List.any_eq_true] at hany
        obtain ⟨e0, he0, hm⟩ := hany
        exact ⟨e0, he0, (sameUnordered_congr hx e0.1) ▸ hm⟩
      obtain ⟨e, hfind⟩ := hsome
      have hp := List.find?_some hfind
      have hpx : sameUnordered e.1 (x1, x2) = true :=
        (sameUnordered_congr hx e.1) ▸ hp
      rw [hfind]
      simp [hpx]
    · rw [if_neg hx]
      cases hfind : G.edges.find? fun e => sameUnordered e.1 (a, b) with
      | none => simp [hfind]
      | some e =>
        have hp := List.find?_some hfind
        have hpx : sameUnordered e.1 (x1, x2) = false := by
          rcases Bool.eq_false_or_eq_true (sameUnordered e.1 (x1, x2)) with
            h | h
          · rw [sameUnordered_symm] at h
            exact absurd (sameUnordered_trans h hp) hx
          · exact h
        simp [hfind, hpx]
  · rw [if_neg hany, NXGraph.getWeight, NXGraph.getWeight, List.find?_append]
    by_cases hx : sameUnordered (x1, x2) (a, b) = true
    · rw [if_pos hx]
      have hnone : G.edges.find? (fun e => sameUnordered e.1 (a, b)) = none := by
        rw [List.find?_eq_none]
        intro e he hm
        exact hany (List.any_eq_true.mpr
          ⟨e, he, (sameUnordered_congr hx e.1) ▸ hm⟩)
      rw [hnone]
      simp [hx]
    · rw [if_neg hx]
      have : List.find? (fun e => sameUnordered e.1 (a, b)) [((x1, x2), w)]
          = none := by
        simp only [List.find?_singleton]
        simp [hx]
      rw [this]
      simp

/-- `add_edge` keeps at most one stored edge per unordered pair. -/
theorem edgeCount_add_edge_le (G : NXGraph) (a b x1 x2 : String) (w : ℚ)
    (h : G.edgeCount a b ≤ 1) : (G.add_edge x1 x2 w).edgeCount a b ≤ 1 := by
  rw [NXGraph.add_edge]
  by_cases hany : (G.edges.any fun e => sameUnordered e.1 (x1, x2)) = true
  · rw [if_pos hany]
    rw [NXGraph.edgeCount] at h ⊢
    rw [List.filter_map]
    have hcomp : ((fun e : (String × String) × ℚ => sameUnordered e.1 (a, b)) ∘
        fun e => if sameUnordered e.1 (x1, x2) then (e.1, w) else e) =
        fun e : (String × String) × ℚ => sameUnordered e.1 (a, b) := by
      funext e
      by_cases he : sameUnordered e.1 (x1, x2) <;> simp [he]
    rw [hcomp, List.length_map]
    exact h
  · rw [if_neg hany]
    rw [NXGraph.edgeCount] at h ⊢
    rw [List.filter_append, List.length_append]
    by_cases hx : sameUnordered (x1, x2) (a, b) = true
    · have hmain : (G.edges.filter fun e => sameUnordered e.1 (a, b)) = [] := by
        rw [List.filter_eq_nil_iff]
        intro e he hm
        exact hany (List.any_eq_true.mpr
          ⟨e, he, (sameUnordered_congr hx e.1) ▸ hm⟩)
      rw [hmain]
      simpa using List.length_filter_le
        (fun e : (String × String) × ℚ => sameUnordered e.1 (a, b))
        [((x1, x2), w)]
    · have : List.filter (fun e => sameUnordered e.1 (a, b)) [((x1, x2), w)]
          = [] := by
        simp only [List.filter_eq_nil_iff]
        intro e he
        simp only [List.mem_singleton] at he
        subst he
        simp [hx]
      rw [this]
      simpa using h

/-- The weights supplied for the unordered pair `(a, b)` by an interaction
list, in input order (`1.0` substituted for a missing weight, as the builder
does). -/
def observedWeights (interactions : List GeneGeneInteraction)
    (a b : String) : List ℚ :=
  (interactions.filter fun i =>
    sameUnordered (i.gene1_id, i.gene2_id) (a, b)).map fun i => i.weight.getD 1

theorem getLast?_cons {α : Type} (x : α) (t : List α) :
    (x :: t).getLast? = t.getLast?.or (some x) := by
  cases t with
  | nil => rfl
  | cons y t' =>
    rw [List.getLast?_cons_cons]
    cases hl : (y :: t').getLast? with
    | none => exact absurd hl (by simp)
    | some z => rfl

/-- Folding `add_edge` over interactions: the final weight of `(a, b)` is
the last observed weight, falling back to the starting graph's weight. -/
theorem getWeight_foldl (interactions : List GeneGeneInteraction)
    (G : NXGraph) (a b : String) :
    (interactions.foldl
      (fun G inter =>
        G.add_edge inter.gene1_id inter.gene2_id (inter.weight.getD 1))
      G).getWeight a b =
    (observedWeights interactions a b).getLast?.or (G.getWeight a b) := by
  induction interactions generalizing G with
  | nil => simp [observedWeights]
  | cons i l ih =>
    rw [List.foldl_cons, ih, observedWeights, observedWeights]
    by_cases hm : sameUnordered (i.gene1_id, i.gene2_id) (a, b) = true
    · simp only [List.filter_cons, hm, if_true, List.map_cons]
      rw [getLast?_cons, Option.or_assoc]
      have : (some (i.weight.getD 1)).or
          ((G.add_edge i.gene1_id i.gene2_id (i.weight.getD 1)).getWeight a b)
          = (some (i.weight.getD 1)).or (G.getWeight a b) := by
        simp
      rw [getWeight_add_edge, if_pos hm]
      simp
    · rw [Bool.not_eq_true] at hm
      simp only [List.filter_cons, hm, Bool.false_eq_true, if_false]
      rw [getWeight_add_edge, if_neg (by simp [hm])]

/-- **C6, amended.** Building the interaction graph collapses duplicate
edges — also a reversed duplicate `(A,B)` / `(B,A)` — to at most one stored
edge per unordered pair, and the surviving edge's `weight` attribute is the
**last** weight observed among the duplicates (networkx `add_edge` overwrites
the attribute), not the maximum. -/
theorem build_ppi_graph_collapses_edges :
    (∀ (interactions : List GeneGeneInteraction) (a b : String),
        (build_ppi_graph interactions).edgeCount a b ≤ 1)
    ∧ (∀ (interactions : List GeneGeneInteraction) (a b : String),
        (build_ppi_graph interactions).getWeight a b =
          (observedWeights interactions a b).getLast?) := by
  constructor
  · intro interactions a b
    rw [build_ppi_graph]
    have key : ∀ (l : List GeneGeneInteraction) (G : NXGraph),
        G.edgeCount a b ≤ 1 →
        (l.foldl (fun G inter =>
          G.add_edge inter.gene1_id inter.gene2_id (inter.weight.getD 1))
          G).edgeCount a b ≤ 1 := by
      intro l
      induction l with
      | nil => intro G hG; exact hG
      | cons i t ih =>
        intro G hG
        exact ih _ (edgeCount_add_edge_le G a b _ _ _ hG)
    exact key interactions ⟨[]⟩ (by simp [NXGraph.edgeCount])
  · intro interactions a b
    rw [build_ppi_graph, getWeight_foldl]
    have : NXGraph.getWeight ⟨[]⟩ a b = none := rfl
    rw [this, Option.or_none]

/-- Interaction list with a reversed duplicate: `(A, B, 1.0)` then
`(B, A, 0.5)`. -/
def exInters : List GeneGeneInteraction :=
  [⟨"A", "B", some 1, "ppi"⟩, ⟨"B", "A", some (1 / 2), "ppi"⟩]

/-- **C6, counterexample.** Rebuilding from `(A,B,1.0)` and the reversed
duplicate `(B,A,0.5)` yields exactly one edge between A and B, but its
weight is `0.5` — the last observed value — while the maximum observed
weight is `1`. -/
theorem build_ppi_graph_max_weight_counterexample :
    (build_ppi_graph exInters).edgeCount "A" "B" = 1 ∧
    (build_ppi_graph exInters).getWeight "A" "B" = some (1 / 2) ∧
    seriesMax (observedWeights exInters "A" "B") = some 1 ∧
    ((1 : ℚ) / 2) ≠ 1 := by
  refine ⟨by decide, rfl, ?_, by norm_num⟩
  show some (max 1 (1 / 2)) = some (1 : ℚ)
  norm_num

/-! ## Distance precomputation
(`scripts/precompute_gene_distance_matrix.py`)

The script reads three tables, sorts the deduplicated union of their gene
identifiers into the universe, writes the gene-index CSV, builds the PPI
graph (`nx.Graph` via `add_edges_from`, i.e. the symmetric adjacency of the
edge list), allocates the `N × N` uint16 memmap initialized to the sentinel
with a zeroed diagonal, and for every universe gene present in the graph
writes the BFS distances from `nx.single_source_shortest_path_length`
(whose semantics — exact shortest path lengths, optionally cut off — is
embedded below via a bounded search; a shortest walk is a simple path of
length at most the number of graph nodes, so the search range is
sufficient). -/

/-- All gene identifiers mentioned by the PPI edge list. -/
def ppiGenes (ppi : List (String × String)) : List String :=
  ppi.flatMap fun e => [e.1, e.2]

/-- The multiset union underlying `build_gene_universe`: genes of the PPI
table, the drug-target table, and the gene-disease table. -/
def rawGenes (ppi : List (String × String)) (dtGenes gdGenes : List String) :
    List String :=
  ppiGenes ppi ++ dtGenes ++ gdGenes

/-- `sorted(build_gene_universe(...))`: the deduplicated union, sorted
lexicographically (Python `sorted` on distinct strings and `insertionSort`
on a deduplicated list compute the same sorted duplicate-free sequence). -/
def sortedUniverse (ppi : List (String × String))
    (dtGenes gdGenes : List String) : List String :=
  List.insertionSort (· ≤ ·) (rawGenes ppi dtGenes gdGenes).dedup

/-- The rows of the written `gene_index.csv`: `(gene_id, index)` with
`index = list(range(N))` zipped against the sorted universe. -/
def geneIndexFile (u : List String) : List (String × Nat) :=
  u.zip (List.range u.length)

/-- The dict `gene_to_idx = {g: i for i, g in enumerate(all_genes)}` (the
universe is duplicate-free, so the index of `g` is its first position). -/
def gene_to_idx (u : List String) (g : String) : Option Nat :=
  if g ∈ u then some (u.indexOf g) else none

/-- Neighbours of `g` in the undirected graph `nx.Graph` builds from the
edge list (both orientations; duplicates are harmless for reachability). -/
def nbrs (ppi : List (String × String)) (g : String) : List String :=
  (ppi.filterMap fun e => if e.1 = g then some e.2 else none) ++
  (ppi.filterMap fun e => if e.2 = g then some e.1 else none)

/-- The node set of the PPI graph (`g in G`). -/
def graphNodes (ppi : List (String × String)) : List String :=
  (ppiGenes ppi).dedup

/-- `reachLe ppi d s t`: the undirected edge list admits a walk from `s` to
`t` of length at most `d`. -/
def reachLe (ppi : List (String × String)) : Nat → String → String → Bool
  | 0, s, t => s == t
  | d + 1, s, t => s == t || (nbrs ppi s).any fun u => reachLe ppi d u t

/-- Shortest-path distance from `s` to `t` (`none` when unreachable): the
least `d` admitting a walk of length `≤ d`.  A shortest walk is a simple
path, whose length is below the number of graph nodes, so searching
`0 .. |nodes|` is exhaustive. -/
def spd (ppi : List (String × String)) (s t : String) : Option Nat :=
  (List.range ((graphNodes ppi).length + 1)).find? fun d => reachLe ppi d s t

/-- The BFS depth cutoff test: `nx.single_source_shortest_path_length`
returns only nodes within `cutoff` when one is given. -/
def cutoffOk (cutoff : Option Nat) (d : Nat) : Bool :=
  match cutoff with
  | none => true
  | some c => decide (d ≤ c)

/-- Semantics of `lengths = nx.single_source_shortest_path_length(G, g,
cutoff)`: each graph node `h` at shortest distance `d` from `g` (within the
cutoff) paired with that distance.  The dict's iteration order is
unspecified; every consumer below writes each key to a distinct matrix cell,
so the order never matters. -/
def bfsLengths (ppi : List (String × String)) (cutoff : Option Nat)
    (g : String) : List (String × Nat) :=
  (graphNodes ppi).filterMap fun h =>
    match spd ppi g h with
    | some d => if cutoffOk cutoff d then some (h, d) else none
    | none => none

/-- Apply a sequence of `(offset, value)` writes to the row-major entry
array (`m.set` beyond the array length is a no-op; all offsets produced
below are in range). -/
def applyWrites (m : List Nat) (ws : List (Nat × Nat)) : List Nat :=
  ws.foldl (fun acc w => acc.set w.1 w.2) m

/-- The freshly allocated matrix: `dist[:] = max_uint16`. -/
def initMatrix (N : Nat) : List Nat :=
  List.replicate (N * N) SENT

/-- `for i in range(N): dist[i, i] = 0`. -/
def diagFilled (N : Nat) : List Nat :=
  applyWrites (initMatrix N) ((List.range N).map fun i => (i * N + i, 0))

/-- The writes performed for one BFS source `g` (row `i = gene_to_idx[g]`):
`for h, d in lengths: j = gene_to_idx.get(h); if j is None: continue;
if d <= max_uint16: dist[i, j] = d`. -/
def sourceWrites (ppi : List (String × String)) (cutoff : Option Nat)
    (u : List String) (g : String) : List (Nat × Nat) :=
  (bfsLengths ppi cutoff g).filterMap fun hd =>
    match gene_to_idx u hd.1 with
    | none => none
    | some j =>
        if hd.2 ≤ SENT then some (u.indexOf g * u.length + j, hd.2) else none

/-- `genes_in_graph = [g for g in all_genes if g in G]`. -/
def genesInGraph (ppi : List (String × String)) (u : List String) :
    List String :=
  u.filter fun g => decide (g ∈ graphNodes ppi)

/-- The final row-major entry array of the distance matrix: sentinel fill,
zeroed diagonal, then the BFS writes from every universe gene present in
the graph. -/
def matrixEntries (ppi : List (String × String))
    (dtGenes gdGenes : List String) (cutoff : Option Nat) : List Nat :=
  let u := sortedUniverse ppi dtGenes gdGenes
  (genesInGraph ppi u).foldl
    (fun m g => applyWrites m (sourceWrites ppi cutoff u g))
    (diagFilled u.length)

/-- Little-endian byte serialization of the uint16 entry array, as written
to the matrix file. -/
def matrixFileBytes (entries : List Nat) : List Nat :=
  entries.flatMap fun v => [v % 256, v / 256 % 256]

/-- The text lines of the written `gene_index.csv`. -/
def indexCsvLines (rows : List (String × Nat)) : List String :=
  "gene_id,index" :: rows.map fun r => r.1 ++ "," ++ toString r.2

/-- Observable file events of `main`. -/
inductive RunEvent where
  | wroteIndexFile (rows : List (String × Nat))
  | matrixAllocFailed
  | wroteMatrixFile (entries : List Nat)
deriving DecidableEq

/-- The file-writing behaviour of `main`, in program order: the gene-index
CSV is written unconditionally (`df_index.to_csv`) before the matrix memmap
is allocated; `np.memmap(..., mode="w+", shape=(0, 0))` raises (mmap of an
empty file) when the universe is empty, and otherwise the filled matrix is
flushed.  `main` contains no empty-universe check. -/
def precomputeRun (ppi : List (String × String))
    (dtGenes gdGenes : List String) (cutoff : Option Nat) : List RunEvent :=
  let u := sortedUniverse ppi dtGenes gdGenes
  if u.length = 0 then
    [.wroteIndexFile (geneIndexFile u), .matrixAllocFailed]
  else
    [.wroteIndexFile (geneIndexFile u),
     .wroteMatrixFile (matrixEntries ppi dtGenes gdGenes cutoff)]

theorem length_applyWrites (ws : List (Nat × Nat)) (m : List Nat) :
    (applyWrites m ws).length = m.length := by
  induction ws generalizing m with
  | nil => rfl
  | cons w t ih =>
    rw [applyWrites, List.foldl_cons, ← applyWrites, ih]
    simp

theorem applyWrites_append (m : List Nat) (ws1 ws2 : List (Nat × Nat)) :
    applyWrites m (ws1 ++ ws2) = applyWrites (applyWrites m ws1) ws2 := by
  rw [applyWrites, applyWrites, applyWrites, List.foldl_append]

/-- A position no write targets keeps its previous content. -/
theorem getElem?_applyWrites_of_not_written (ws : List (Nat × Nat))
    (m : List Nat) (k : Nat) (h : ∀ w ∈ ws, w.1 ≠ k) :
    (applyWrites m ws)[k]? = m[k]? := by
  induction ws generalizing m with
  | nil => rfl
  | cons w t ih =>
    rw [applyWrites, List.foldl_cons, ← applyWrites]
    rw [ih _ fun w' hw' => h w' (List.mem_cons_of_mem w hw')]
    exact List.getElem?_set_ne (h w (List.mem_cons_self w t))

/-- A position targeted by exactly one write (up to element identity) ends
up holding that write's value. -/
theorem getElem?_applyWrites_unique (ws : List (Nat × Nat)) (m : List Nat)
    (w₀ : Nat × Nat) (hw : w₀ ∈ ws)
    (huniq : ∀ w ∈ ws, w.1 = w₀.1 → w = w₀) (hk : w₀.1 < m.length) :
    (applyWrites m ws)[w₀.1]? = some w₀.2 := by
  induction ws generalizing m with
  | nil => exact absurd hw (List.not_mem_nil w₀)
  | cons w t ih =>
    rw [applyWrites, List.foldl_cons, ← applyWrites]
    by_cases hmem : w₀ ∈ t
    · exact ih _ hmem (fun w' hw' h' => huniq w' (List.mem_cons_of_mem w hw') h')
        (by simpa using hk)
    · have hw0 : w = w₀ := by
        rcases List.mem_cons.mp hw with h | h
        · exact h.symm
        · exact absurd h hmem
      subst hw0
      rw [getElem?_applyWrites_of_not_written t _ _ fun w' hw' => by
        intro hcol
        exact hmem (huniq w' (List.mem_cons_of_mem w hw') hcol ▸ hw')]
      simp [List.getElem?_set_self, hk]

/-- The nested fill loop is the flattened write sequence applied once. -/
theorem matrixEntries_eq_applyWrites (ppi : List (String × String))
    (dtGenes gdGenes : List String) (cutoff : Option Nat) :
    matrixEntries ppi dtGenes gdGenes cutoff =
      applyWrites (diagFilled (sortedUniverse ppi dtGenes gdGenes).length)
        ((genesInGraph ppi (sortedUniverse ppi dtGenes gdGenes)).flatMap
          (sourceWrites ppi cutoff (sortedUniverse ppi dtGenes gdGenes))) := by
  rw [matrixEntries]
  generalize (sortedUniverse ppi dtGenes gdGenes) = u
  generalize (diagFilled u.length) = m
  induction genesInGraph ppi u generalizing m with
  | nil => rfl
  | cons g t ih =>
    rw [List.foldl_cons, List.flatMap_cons, applyWrites_append, ih]

theorem mem_nbrs_iff (ppi : List (String × String)) (g x : String) :
    x ∈ nbrs ppi g ↔ (g, x) ∈ ppi ∨ (x, g) ∈ ppi := by
  rw [nbrs, List.mem_append, List.mem_filterMap, List.mem_filterMap]
  constructor
  · rintro (⟨e, he, hx⟩ | ⟨e, he, hx⟩)
    · by_cases h1 : e.1 = g
      · rw [if_pos h1] at hx
        cases hx
        exact Or.inl (by rwa [← h1, Prod.mk.eta])
      · rw [if_neg h1] at hx
        cases hx
    · by_cases h2 : e.2 = g
      · rw [if_pos h2] at hx
        cases hx
        exact Or.inr (by rwa [← h2, Prod.mk.eta])
      · rw [if_neg h2] at hx
        cases hx
  · rintro (h | h)
    · exact Or.inl ⟨(g, x), h, by simp⟩
    · exact Or.inr ⟨(x, g), h, by simp⟩

theorem mem_ppiGenes_of_mem_nbrs {ppi : List (String × String)}
    {g x : String} (h : x ∈ nbrs ppi g) : x ∈ ppiGenes ppi := by
  rw [mem_nbrs_iff] at h
  rw [ppiGenes, List.mem_flatMap]
  rcases h with h | h
  · exact ⟨(g, x), h, by simp⟩
  · exact ⟨(x, g), h, by simp⟩

theorem mem_graphNodes_iff (ppi : List (String × String)) (x : String) :
    x ∈ graphNodes ppi ↔ x ∈ ppiGenes ppi := by
  rw [graphNodes, List.mem_dedup]

/-- A walk endpoint is a graph node (or the walk is trivial). -/
theorem reachLe_target_mem {ppi : List (String × String)} {d : Nat}
    {s t : String} (h : reachLe ppi d s t = true) :
    s = t ∨ t ∈ graphNodes ppi := by
  induction d generalizing s with
  | zero =>
    rw [reachLe] at h
    exact Or.inl (by simpa using h)
  | succ d ih =>
    rw [reachLe, Bool.or_eq_true] at h
    rcases h with h | h
    · exact Or.inl (by simpa using h)
    · rw [List.any_eq_true] at h
      obtain ⟨u, hu, hr⟩ := h
      rcases ih hr with rfl | hmem
      · exact Or.inr ((mem_graphNodes_iff ppi u).mpr (mem_ppiGenes_of_mem_nbrs hu))
      · exact Or.inr hmem

/-- Walks along the undirected adjacency: `IsWalk ppi s l t` means the
successive elements of `l` step from `s` through neighbours and end at
`t`. -/
def IsWalk (ppi : List (String × String)) : String → List String → String → Prop
  | s, [], t => s = t
  | s, u :: l, t => u ∈ nbrs ppi s ∧ IsWalk ppi u l t

theorem reachLe_iff_exists_walk (ppi : List (String × String)) (d : Nat)
    (s t : String) :
    reachLe ppi d s t = true ↔ ∃ l, l.length ≤ d ∧ IsWalk ppi s l t := by
  induction d generalizing s with
  | zero =>
    rw [reachLe]
    constructor
    · intro h
      exact ⟨[], by simp, by simpa using h⟩
    · rintro ⟨l, hl, hw⟩
      obtain rfl : l = [] := List.length_eq_zero.mp (Nat.le_zero.mp hl)
      simpa using hw
  | succ d ih =>
    rw [reachLe, Bool.or_eq_true, List.any_eq_true]
    constructor
    · rintro (h | ⟨u, hu, hr⟩)
      · exact ⟨[], by simp, by simpa using h⟩
      · obtain ⟨l, hl, hw⟩ := (ih u).mp hr
        exact ⟨u :: l, by simpa using Nat.succ_le_succ hl, hu, hw⟩
    · rintro ⟨l, hl, hw⟩
      cases l with
      | nil => exact Or.inl (by simpa using hw)
      | cons u l' =>
        exact Or.inr ⟨u, hw.1, (ih u).mpr
          ⟨l', Nat.le_of_succ_le_succ (by simpa using hl), hw.2⟩⟩

theorem isWalk_append {ppi : List (String × String)} {s m t : String}
    {l₁ l₂ : List String} (h₁ : IsWalk ppi s l₁ m) (h₂ : IsWalk ppi m l₂ t) :
    IsWalk ppi s (l₁ ++ l₂) t := by
  induction l₁ generalizing s with
  | nil =>
    obtain rfl : s = m := h₁
    simpa using h₂
  | cons u l' ih => exact ⟨h₁.1, ih h₁.2⟩

theorem mem_nbrs_symm {ppi : List (String × String)} {g x : String}
    (h : x ∈ nbrs ppi g) : g ∈ nbrs ppi x := by
  rw [mem_nbrs_iff] at h ⊢
  tauto

/-- Every walk reverses to a walk of the same length (the adjacency is
symmetric). -/
theorem isWalk_reverse {ppi : List (String × String)} {s t : String}
    {l : List String} (h : IsWalk ppi s l t) :
    ∃ l', l'.length = l.length ∧ IsWalk ppi t l' s := by
  induction l generalizing s with
  | nil =>
    obtain rfl : s = t := h
    exact ⟨[], rfl, rfl⟩
  | cons u l' ih =>
    obtain ⟨r, hlen, hwr⟩ := ih h.2
    refine ⟨r ++ [s], by simp [hlen], isWalk_append hwr ?_⟩
    exact ⟨mem_nbrs_symm h.1, rfl⟩

theorem reachLe_symm (ppi : List (String × String)) (d : Nat) (s t : String) :
    reachLe ppi d s t = reachLe ppi d t s := by
  rw [Bool.eq_iff_iff, reachLe_iff_exists_walk, reachLe_iff_exists_walk]
  constructor
  · rintro ⟨l, hl, hw⟩
    obtain ⟨l', hlen, hw'⟩ := isWalk_reverse hw
    exact ⟨l', hlen ▸ hl, hw'⟩
  · rintro ⟨l, hl, hw⟩
    obtain ⟨l', hlen, hw'⟩ := isWalk_reverse hw
    exact ⟨l', hlen ▸ hl, hw'⟩

/-- Shortest-path distance is symmetric in the undirected graph. -/
theorem spd_symm (ppi : List (String × String)) (s t : String) :
    spd ppi s t = spd ppi t s := by
  rw [spd, spd]
  congr 1
  funext d
  exact reachLe_symm ppi d s t

theorem reachLe_self (ppi : List (String × String)) (d : Nat) (s : String) :
    reachLe ppi d s s = true := by
  cases d <;> simp [reachLe]

/-- Every node is at distance `0` from itself. -/
theorem spd_self (ppi : List (String × String)) (g : String) :
    spd ppi g g = some 0 := by
  rw [spd, List.range_succ_eq_map, List.find?_cons]
  simp [reachLe_self]

theorem gene_to_idx_eq_some_iff (u : List String) (g : String) (j : Nat) :
    gene_to_idx u g = some j ↔ g ∈ u ∧ u.indexOf g = j := by
  rw [gene_to_idx]
  by_cases h : g ∈ u <;> simp [h]

theorem gene_to_idx_lt {u : List String} {g : String} {j : Nat}
    (h : gene_to_idx u g = some j) : j < u.length := by
  rw [gene_to_idx_eq_some_iff] at h
  exact h.2 ▸ List.indexOf_lt_length.mpr h.1

theorem getD_of_gene_to_idx {u : List String} {g : String} {j : Nat}
    (h : gene_to_idx u g = some j) : u.getD j "" = g := by
  rw [gene_to_idx_eq_some_iff] at h
  obtain ⟨hm, rfl⟩ := h
  rw [List.getD_eq_getElem u "" (List.indexOf_lt_length.mpr hm)]
  exact List.indexOf_get _

theorem getD_mem {u : List String} {i : Nat} (h : i < u.length) :
    u.getD i "" ∈ u := by
  rw [List.getD_eq_getElem u "" h]
  exact List.getElem_mem h

theorem indexOf_getD {u : List String} (hu : u.Nodup) {i : Nat}
    (h : i < u.length) : u.indexOf (u.getD i "") = i := by
  rw [List.getD_eq_getElem u "" h]
  exact List.indexOf_getElem hu i h

theorem mem_bfsLengths_iff (ppi : List (String × String)) (cutoff : Option Nat)
    (g h : String) (d : Nat) :
    (h, d) ∈ bfsLengths ppi cutoff g ↔
      h ∈ graphNodes ppi ∧ spd ppi g h = some d ∧ cutoffOk cutoff d = true := by
  rw [bfsLengths, List.mem_filterMap]
  constructor
  · rintro ⟨h', hmem, heq⟩
    cases hspd : spd ppi g h' with
    | none => rw [hspd] at heq; cases heq
    | some d' =>
      rw [hspd] at heq
      dsimp only at heq
      by_cases hc : cutoffOk cutoff d' = true
      · rw [if_pos hc] at heq
        cases heq
        exact ⟨hmem, hspd, hc⟩
      · rw [if_neg hc] at heq
        cases heq
  · rintro ⟨hmem, hspd, hc⟩
    refine ⟨h, hmem, ?_⟩
    rw [hspd]
    dsimp only
    rw [if_pos hc]

theorem mem_sourceWrites_iff (ppi : List (String × String))
    (cutoff : Option Nat) (u : List String) (g : String) (w : Nat × Nat) :
    w ∈ sourceWrites ppi cutoff u g ↔
      ∃ h d j, (h, d) ∈ bfsLengths ppi cutoff g ∧ gene_to_idx u h = some j ∧
        d ≤ SENT ∧ w = (u.indexOf g * u.length + j, d) := by
  rw [sourceWrites, List.mem_filterMap]
  constructor
  · rintro ⟨⟨h, d⟩, hmem, heq⟩
    cases hidx : gene_to_idx u h with
    | none => rw [hidx] at heq; cases heq
    | some j =>
      rw [hidx] at heq
      dsimp only at heq
      by_cases hd : d ≤ SENT
      · rw [if_pos hd] at heq
        cases heq
        exact ⟨h, d, j, hmem, hidx, hd, rfl⟩
      · rw [if_neg hd] at heq
        cases heq
  · rintro ⟨h, d, j, hmem, hidx, hd, rfl⟩
    refine ⟨(h, d), hmem, ?_⟩
    rw [hidx]
    dsimp only
    rw [if_pos hd]

theorem spd_some_reachLe {ppi : List (String × String)} {s t : String}
    {d : Nat} (h : spd ppi s t = some d) : reachLe ppi d s t = true := by
  rw [spd] at h
  have := List.find?_some h
  simpa using this

theorem offset_inj {N i j i' j' : Nat} (hj : j < N) (hj' : j' < N)
    (h : i * N + j = i' * N + j') : i = i' ∧ j = j' := by
  have hi : i = i' := by
    rcases Nat.lt_trichotomy i i' with hlt | heq | hgt
    · nlinarith
    · exact heq
    · nlinarith
  subst hi
  omega

theorem offset_lt {N i j : Nat} (hi : i < N) (hj : j < N) :
    i * N + j < N * N := by
  nlinarith

theorem length_diagFilled (N : Nat) : (diagFilled N).length = N * N := by
  rw [diagFilled, length_applyWrites, initMatrix, List.length_replicate]

theorem getElem?_diagFilled {N : Nat} (i j : Nat) (hi : i < N) (hj : j < N) :
    (diagFilled N)[i * N + j]? = some (if i = j then 0 else SENT) := by
  rw [diagFilled]
  by_cases hij : i = j
  · subst hij
    rw [if_pos rfl]
    apply getElem?_applyWrites_unique _ _ (i * N + i, 0)
    · simp only [List.mem_map, List.mem_range]
      exact ⟨i, hi, rfl⟩
    · intro w hw hoff
      simp only [List.mem_map, List.mem_range] at hw
      obtain ⟨i', hi', rfl⟩ := hw
      obtain ⟨h1, _⟩ := offset_inj hi' hi hoff
      rw [h1]
    · rw [initMatrix, List.length_replicate]
      exact offset_lt hi hi
  · rw [if_neg hij]
    rw [getElem?_applyWrites_of_not_written]
    · rw [initMatrix, List.getElem?_replicate]
      rw [if_pos (offset_lt hi hj)]
    · intro w hw
      simp only [List.mem_map, List.mem_range] at hw
      obtain ⟨i', hi', rfl⟩ := hw
      intro hoff
      obtain ⟨h1, h2⟩ := offset_inj hi' hj hoff
      exact hij (h1 ▸ h2)

theorem sortedUniverse_nodup (ppi : List (String × String))
    (dtGenes gdGenes : List String) :
    (sortedUniverse ppi dtGenes gdGenes).Nodup :=
  (List.perm_insertionSort _ _).nodup_iff.mpr
    (List.nodup_dedup (rawGenes ppi dtGenes gdGenes))

theorem mem_sortedUniverse_iff (ppi : List (String × String))
    (dtGenes gdGenes : List String) (g : String) :
    g ∈ sortedUniverse ppi dtGenes gdGenes ↔
      g ∈ rawGenes ppi dtGenes gdGenes := by
  rw [sortedUniverse, (List.perm_insertionSort _ _).mem_iff, List.mem_dedup]

theorem graphNodes_subset_sortedUniverse (ppi : List (String × String))
    (dtGenes gdGenes : List String) {g : String} (h : g ∈ graphNodes ppi) :
    g ∈ sortedUniverse ppi dtGenes gdGenes := by
  rw [mem_sortedUniverse_iff, rawGenes, List.mem_append, List.mem_append]
  rw [mem_graphNodes_iff] at h
  exact Or.inl (Or.inl h)

theorem mem_genesInGraph_iff (ppi : List (String × String)) (u : List String)
    (g : String) :
    g ∈ genesInGraph ppi u ↔ g ∈ u ∧ g ∈ graphNodes ppi := by
  rw [genesInGraph, List.mem_filter]
  simp

/-- The value the matrix holds at position `(i, j)` after the precompute run:
the shortest distance from gene `i` to gene `j` when gene `i` is a graph node
and BFS discovered the target within the cutoff and the uint16 range;
otherwise the initialization value (0 on the diagonal, sentinel off it). -/
def entryValue (ppi : List (String × String)) (cutoff : Option Nat)
    (u : List String) (i j : Nat) : Nat :=
  if u.getD i "" ∈ graphNodes ppi then
    match spd ppi (u.getD i "") (u.getD j "") with
    | some d =>
        if cutoffOk cutoff d && decide (d ≤ SENT) then d
        else if i = j then 0 else SENT
    | none => if i = j then 0 else SENT
  else if i = j then 0 else SENT

/-- Any write landing on offset `i * N + j` must come from BFS source
`u[i]` discovering `u[j]`, within cutoff and uint16 range. -/
theorem write_at_offset {ppi : List (String × String)} {cutoff : Option Nat}
    {u : List String} {i j : Nat}
    (hj : j < u.length) {w : Nat × Nat}
    (hw : w ∈ (genesInGraph ppi u).flatMap (sourceWrites ppi cutoff u))
    (hoff : w.1 = i * u.length + j) :
    u.getD i "" ∈ graphNodes ppi ∧
    spd ppi (u.getD i "") (u.getD j "") = some w.2 ∧
    cutoffOk cutoff w.2 = true ∧ w.2 ≤ SENT := by
  rw [List.mem_flatMap] at hw
  obtain ⟨g, hg, hws⟩ := hw
  rw [mem_genesInGraph_iff] at hg
  rw [mem_sourceWrites_iff] at hws
  obtain ⟨h, d, j', hbfs, hidx, hd, rfl⟩ := hws
  dsimp only at hoff ⊢
  have hj' : j' < u.length := gene_to_idx_lt hidx
  obtain ⟨hrow, hcol⟩ := offset_inj hj' hj hoff
  have hgi : u.getD i "" = g := by
    rw [← hrow, List.getD_eq_getElem u "" (hrow ▸ (List.indexOf_lt_length.mpr hg.1))]
    exact List.indexOf_get _
  have hgj : u.getD j "" = h := hcol ▸ getD_of_gene_to_idx hidx
  rw [mem_bfsLengths_iff] at hbfs
  exact ⟨hgi ▸ hg.2, by rw [hgi, hgj]; exact hbfs.2.1, hbfs.2.2, hd⟩

/-- Conversely, when source `u[i]` is a graph node and discovers `u[j]` at
distance `d` within cutoff and range, the flattened write sequence contains
exactly that write. -/
theorem write_exists {ppi : List (String × String)} {cutoff : Option Nat}
    {u : List String} (hu : u.Nodup) {i j d : Nat}
    (hi : i < u.length) (hj : j < u.length)
    (hag : u.getD i "" ∈ graphNodes ppi)
    (hspd : spd ppi (u.getD i "") (u.getD j "") = some d)
    (hcut : cutoffOk cutoff d = true) (hd : d ≤ SENT) :
    (i * u.length + j, d) ∈
      (genesInGraph ppi u).flatMap (sourceWrites ppi cutoff u) := by
  rw [List.mem_flatMap]
  refine ⟨u.getD i "", (mem_genesInGraph_iff _ _ _).mpr ⟨getD_mem hi, hag⟩, ?_⟩
  rw [mem_sourceWrites_iff]
  have hbg : u.getD j "" ∈ graphNodes ppi := by
    rcases reachLe_target_mem (spd_some_reachLe hspd) with heq | hmem
    · exact heq ▸ hag
    · exact hmem
  refine ⟨u.getD j "", d, j, (mem_bfsLengths_iff _ _ _ _ _).mpr ⟨hbg, hspd, hcut⟩,
    ?_, hd, ?_⟩
  · rw [gene_to_idx_eq_some_iff]
    exact ⟨getD_mem hj, indexOf_getD hu hj⟩
  · rw [indexOf_getD hu hi]

/-- Pointwise content of the precomputed matrix: position `(i, j)` holds
`entryValue` — the BFS distance when written, the initialization value
otherwise. -/
theorem matrixEntries_getElem? (ppi : List (String × String))
    (dtGenes gdGenes : List String) (cutoff : Option Nat) (i j : Nat)
    (hi : i < (sortedUniverse ppi dtGenes gdGenes).length)
    (hj : j < (sortedUniverse ppi dtGenes gdGenes).length) :
    (matrixEntries ppi dtGenes gdGenes cutoff)[i *
        (sortedUniverse ppi dtGenes gdGenes).length + j]? =
      some (entryValue ppi cutoff (sortedUniverse ppi dtGenes gdGenes) i j) := by
  set u := sortedUniverse ppi dtGenes gdGenes with hu_def
  have hu : u.Nodup := sortedUniverse_nodup ppi dtGenes gdGenes
  rw [matrixEntries_eq_applyWrites, ← hu_def, entryValue]
  by_cases hag : u.getD i "" ∈ graphNodes ppi
  · rw [if_pos hag]
    cases hspd : spd ppi (u.getD i "") (u.getD j "") with
    | some d =>
      dsimp only
      by_cases hcut : (cutoffOk cutoff d && decide (d ≤ SENT)) = true
      · rw [if_pos hcut]
        rw [Bool.and_eq_true, decide_eq_true_eq] at hcut
        refine getElem?_applyWrites_unique _ (diagFilled u.length)
          (i * u.length + j, d)
          (write_exists hu hi hj hag hspd hcut.1 hcut.2) ?_ ?_
        · intro w hw hoff
          obtain ⟨_, hspd', _, _⟩ := write_at_offset hj hw hoff
          rw [hspd] at hspd'
          obtain rfl : d = w.2 := by cases hspd'; rfl
          exact Prod.ext hoff rfl
        · rw [length_diagFilled]
          exact offset_lt hi hj
      · rw [if_neg hcut]
        rw [getElem?_applyWrites_of_not_written]
        · exact getElem?_diagFilled i j hi hj
        · intro w hw hoff
          obtain ⟨_, hspd', hc, hs⟩ := write_at_offset hj hw hoff
          rw [hspd] at hspd'
          obtain rfl : d = w.2 := by cases hspd'; rfl
          exact hcut (by rw [hc, decide_eq_true hs]; rfl)
    | none =>
      dsimp only
      rw [getElem?_applyWrites_of_not_written]
      · exact getElem?_diagFilled i j hi hj
      · intro w hw hoff
        obtain ⟨_, hspd', _, _⟩ := write_at_offset hj hw hoff
        rw [hspd] at hspd'
        cases hspd'
  · rw [if_neg hag]
    rw [getElem?_applyWrites_of_not_written]
    · exact getElem?_diagFilled i j hi hj
    · intro w hw hoff
      obtain ⟨hag', _, _, _⟩ := write_at_offset hj hw hoff
      exact hag hag'

theorem cutoffOk_zero (cutoff : Option Nat) : cutoffOk cutoff 0 = true := by
  cases cutoff <;> simp [cutoffOk]

/-- **C8.** After the precompute run, the diagonal entry of every universe
gene is `0`, regardless of whether the gene appears in the interaction graph
(the diagonal is zero-filled right after allocation, before any traversal,
and a graph gene's own BFS rewrites it with its self-distance `0`). -/
theorem matrix_diagonal_zero :
    ∀ (ppi : List (String × String)) (dtGenes gdGenes : List String)
      (cutoff : Option Nat) (g : String),
      g ∈ sortedUniverse ppi dtGenes gdGenes →
      (matrixEntries ppi dtGenes gdGenes cutoff)[
          (sortedUniverse ppi dtGenes gdGenes).indexOf g *
            (sortedUniverse ppi dtGenes gdGenes).length +
          (sortedUniverse ppi dtGenes gdGenes).indexOf g]? = some 0 := by
  intro ppi dtGenes gdGenes cutoff g hg
  set u := sortedUniverse ppi dtGenes gdGenes with hu_def
  have hi : u.indexOf g < u.length := List.indexOf_lt_length.mpr hg
  rw [matrixEntries_getElem? ppi dtGenes gdGenes cutoff _ _ hi hi]
  congr 1
  have hgD : u.getD (u.indexOf g) "" = g := by
    rw [List.getD_eq_getElem u "" hi]
    exact List.indexOf_get _
  rw [entryValue, hgD]
  by_cases hag : g ∈ graphNodes ppi
  · rw [if_pos hag, spd_self]
    dsimp only
    rw [if_pos (by rw [cutoffOk_zero, decide_eq_true (by rw [SENT]; omega)]; rfl)]
  · rw [if_neg hag, if_pos rfl]

/-- Witness for C8: a universe gene (`C`) that has no PPI edges still gets a
zero diagonal entry. -/
theorem matrix_diagonal_zero_witness :
    "C" ∈ sortedUniverse [("A", "B")] ["C"] [] ∧
    (matrixEntries [("A", "B")] ["C"] [] none)[
        (sortedUniverse [("A", "B")] ["C"] []).indexOf "C" *
          (sortedUniverse [("A", "B")] ["C"] []).length +
        (sortedUniverse [("A", "B")] ["C"] []).indexOf "C"]? = some 0 :=
  ⟨by rw [mem_sortedUniverse_iff]; decide,
    matrix_diagonal_zero [("A", "B")] ["C"] [] none "C"
      (by rw [mem_sortedUniverse_iff]; decide)⟩

/-- **C7.** The precomputed matrix is symmetric at every pair of genes that
are both nodes of the interaction graph and mutually reachable, with or
without a BFS cutoff and without any separate symmetric-fill step (BFS runs
from every graph node and the shortest-path distance of the undirected graph
is symmetric). -/
theorem matrix_symmetric :
    ∀ (ppi : List (String × String)) (dtGenes gdGenes : List String)
      (cutoff : Option Nat) (a b : String),
      a ∈ graphNodes ppi → b ∈ graphNodes ppi →
      (∃ d, reachLe ppi d a b = true) →
      (matrixEntries ppi dtGenes gdGenes cutoff)[
          (sortedUniverse ppi dtGenes gdGenes).indexOf a *
            (sortedUniverse ppi dtGenes gdGenes).length +
          (sortedUniverse ppi dtGenes gdGenes).indexOf b]? =
      (matrixEntries ppi dtGenes gdGenes cutoff)[
          (sortedUniverse ppi dtGenes gdGenes).indexOf b *
            (sortedUniverse ppi dtGenes gdGenes).length +
          (sortedUniverse ppi dtGenes gdGenes).indexOf a]? := by
  intro ppi dtGenes gdGenes cutoff a b hag hbg _hr
  set u := sortedUniverse ppi dtGenes gdGenes with hu_def
  have hau : a ∈ u := graphNodes_subset_sortedUniverse ppi dtGenes gdGenes hag
  have hbu : b ∈ u := graphNodes_subset_sortedUniverse ppi dtGenes gdGenes hbg
  have hia : u.indexOf a < u.length := List.indexOf_lt_length.mpr hau
  have hib : u.indexOf b < u.length := List.indexOf_lt_length.mpr hbu
  rw [matrixEntries_getElem? ppi dtGenes gdGenes cutoff _ _ hia hib,
    matrixEntries_getElem? ppi dtGenes gdGenes cutoff _ _ hib hia]
  congr 1
  have haD : u.getD (u.indexOf a) "" = a := by
    rw [List.getD_eq_getElem u "" hia]
    exact List.indexOf_get _
  have hbD : u.getD (u.indexOf b) "" = b := by
    rw [List.getD_eq_getElem u "" hib]
    exact List.indexOf_get _
  rw [entryValue, entryValue, haD, hbD, if_pos hag, if_pos hbg,
    spd_symm ppi b a]
  cases spd ppi a b with
  | none =>
    dsimp only
    by_cases hij : u.indexOf a = u.indexOf b
    · rw [if_pos hij, if_pos hij.symm]
    · rw [if_neg hij, if_neg fun h => hij h.symm]
  | some d =>
    dsimp only
    by_cases hc : (cutoffOk cutoff d && decide (d ≤ SENT)) = true
    · rw [if_pos hc, if_pos hc]
    · rw [if_neg hc, if_neg hc]
      by_cases hij : u.indexOf a = u.indexOf b
      · rw [if_pos hij, if_pos hij.symm]
      · rw [if_neg hij, if_neg fun h => hij h.symm]

/-- Witness for C7: genes `A` and `B` joined by an edge in a three-gene
universe. -/
theorem matrix_symmetric_witness :
    "A" ∈ graphNodes [("A", "B")] ∧ "B" ∈ graphNodes [("A", "B")] ∧
    (∃ d, reachLe [("A", "B")] d "A" "B" = true) ∧
    (matrixEntries [("A", "B")] ["C"] [] none)[
        (sortedUniverse [("A", "B")] ["C"] []).indexOf "A" *
          (sortedUniverse [("A", "B")] ["C"] []).length +
        (sortedUniverse [("A", "B")] ["C"] []).indexOf "B"]? =
    (matrixEntries [("A", "B")] ["C"] [] none)[
        (sortedUniverse [("A", "B")] ["C"] []).indexOf "B" *
          (sortedUniverse [("A", "B")] ["C"] []).length +
        (sortedUniverse [("A", "B")] ["C"] []).indexOf "A"]? :=
  ⟨by decide, by decide, ⟨1, by decide⟩,
    matrix_symmetric [("A", "B")] ["C"] [] none "A" "B" (by decide) (by decide)
      ⟨1, by decide⟩⟩

/-! ### Determinism / order-independence of the precompute run (C9).
The run is a pure function of its inputs, so re-running on identical inputs
trivially reproduces identical files; the substantive content is that the
outputs only depend on the *sets* behind the input tables, never on row
order, duplicate multiplicity, or set iteration order. -/

theorem ppiGenes_mem_congr {ppi₁ ppi₂ : List (String × String)}
    (hp : ∀ e, e ∈ ppi₁ ↔ e ∈ ppi₂) (g : String) :
    g ∈ ppiGenes ppi₁ ↔ g ∈ ppiGenes ppi₂ := by
  rw [ppiGenes, ppiGenes, List.mem_flatMap, List.mem_flatMap]
  constructor
  · rintro ⟨e, he, hg⟩
    exact ⟨e, (hp e).mp he, hg⟩
  · rintro ⟨e, he, hg⟩
    exact ⟨e, (hp e).mpr he, hg⟩

theorem nbrs_mem_congr {ppi₁ ppi₂ : List (String × String)}
    (hp : ∀ e, e ∈ ppi₁ ↔ e ∈ ppi₂) (g x : String) :
    x ∈ nbrs ppi₁ g ↔ x ∈ nbrs ppi₂ g := by
  rw [mem_nbrs_iff, mem_nbrs_iff, hp, hp]

theorem graphNodes_mem_congr {ppi₁ ppi₂ : List (String × String)}
    (hp : ∀ e, e ∈ ppi₁ ↔ e ∈ ppi₂) (g : String) :
    g ∈ graphNodes ppi₁ ↔ g ∈ graphNodes ppi₂ := by
  rw [mem_graphNodes_iff, mem_graphNodes_iff]
  exact ppiGenes_mem_congr hp g

theorem graphNodes_length_congr {ppi₁ ppi₂ : List (String × String)}
    (hp : ∀ e, e ∈ ppi₁ ↔ e ∈ ppi₂) :
    (graphNodes ppi₁).length = (graphNodes ppi₂).length :=
  ((List.perm_ext_iff_of_nodup (List.nodup_dedup _) (List.nodup_dedup _)).mpr
    (graphNodes_mem_congr hp)).length_eq

theorem reachLe_congr {ppi₁ ppi₂ : List (String × String)}
    (hp : ∀ e, e ∈ ppi₁ ↔ e ∈ ppi₂) (d : Nat) (s t : String) :
    reachLe ppi₁ d s t = reachLe ppi₂ d s t := by
  induction d generalizing s with
  | zero => rfl
  | succ d ih =>
    rw [reachLe, reachLe, Bool.eq_iff_iff, Bool.or_eq_true, Bool.or_eq_true,
      List.any_eq_true, List.any_eq_true]
    constructor
    · rintro (h | ⟨u, hu, hr⟩)
      · exact Or.inl h
      · exact Or.inr ⟨u, (nbrs_mem_congr hp s u).mp hu, (ih u) ▸ hr⟩
    · rintro (h | ⟨u, hu, hr⟩)
      · exact Or.inl h
      · exact Or.inr ⟨u, (nbrs_mem_congr hp s u).mpr hu, (ih u).symm ▸ hr⟩

theorem spd_congr {ppi₁ ppi₂ : List (String × String)}
    (hp : ∀ e, e ∈ ppi₁ ↔ e ∈ ppi₂) (s t : String) :
    spd ppi₁ s t = spd ppi₂ s t := by
  rw [spd, spd, graphNodes_length_congr hp]
  congr 1
  funext d
  exact reachLe_congr hp d s t

theorem rawGenes_mem_congr {ppi₁ ppi₂ : List (String × String)}
    {dt₁ dt₂ gd₁ gd₂ : List String}
    (hp : ∀ e, e ∈ ppi₁ ↔ e ∈ ppi₂) (hdt : ∀ g, g ∈ dt₁ ↔ g ∈ dt₂)
    (hgd : ∀ g, g ∈ gd₁ ↔ g ∈ gd₂) (g : String) :
    g ∈ rawGenes ppi₁ dt₁ gd₁ ↔ g ∈ rawGenes ppi₂ dt₂ gd₂ := by
  rw [rawGenes, rawGenes]
  simp only [List.mem_append]
  rw [ppiGenes_mem_congr hp, hdt, hgd]

theorem sortedUniverse_congr {ppi₁ ppi₂ : List (String × String)}
    {dt₁ dt₂ gd₁ gd₂ : List String}
    (hp : ∀ e, e ∈ ppi₁ ↔ e ∈ ppi₂) (hdt : ∀ g, g ∈ dt₁ ↔ g ∈ dt₂)
    (hgd : ∀ g, g ∈ gd₁ ↔ g ∈ gd₂) :
    sortedUniverse ppi₁ dt₁ gd₁ = sortedUniverse ppi₂ dt₂ gd₂ := by
  rw [sortedUniverse, sortedUniverse]
  have hperm : (rawGenes ppi₁ dt₁ gd₁).dedup.Perm (rawGenes ppi₂ dt₂ gd₂).dedup :=
    (List.perm_ext_iff_of_nodup (List.nodup_dedup _) (List.nodup_dedup _)).mpr
      fun g => by
        rw [List.mem_dedup, List.mem_dedup]
        exact rawGenes_mem_congr hp hdt hgd g
  exact List.eq_of_perm_of_sorted
    (((List.perm_insertionSort _ _).trans hperm).trans
      (List.perm_insertionSort _ _).symm)
    (List.sorted_insertionSort _ _) (List.sorted_insertionSort _ _)

theorem length_matrixEntries (ppi : List (String × String))
    (dtGenes gdGenes : List String) (cutoff : Option Nat) :
    (matrixEntries ppi dtGenes gdGenes cutoff).length =
      (sortedUniverse ppi dtGenes gdGenes).length *
        (sortedUniverse ppi dtGenes gdGenes).length := by
  rw [matrixEntries_eq_applyWrites, length_applyWrites, length_diagFilled]

theorem entryValue_congr {ppi₁ ppi₂ : List (String × String)}
    (hp : ∀ e, e ∈ ppi₁ ↔ e ∈ ppi₂) (cutoff : Option Nat) (u : List String)
    (i j : Nat) :
    entryValue ppi₁ cutoff u i j = entryValue ppi₂ cutoff u i j := by
  rw [entryValue, entryValue, spd_congr hp]
  by_cases hag : u.getD i "" ∈ graphNodes ppi₁
  · rw [if_pos hag, if_pos ((graphNodes_mem_congr hp _).mp hag)]
  · rw [if_neg hag, if_neg fun h => hag ((graphNodes_mem_congr hp _).mpr h)]

theorem matrixEntries_congr {ppi₁ ppi₂ : List (String × String)}
    {dt₁ dt₂ gd₁ gd₂ : List String} (cutoff : Option Nat)
    (hp : ∀ e, e ∈ ppi₁ ↔ e ∈ ppi₂) (hdt : ∀ g, g ∈ dt₁ ↔ g ∈ dt₂)
    (hgd : ∀ g, g ∈ gd₁ ↔ g ∈ gd₂) :
    matrixEntries ppi₁ dt₁ gd₁ cutoff = matrixEntries ppi₂ dt₂ gd₂ cutoff := by
  have hu : sortedUniverse ppi₁ dt₁ gd₁ = sortedUniverse ppi₂ dt₂ gd₂ :=
    sortedUniverse_congr hp hdt hgd
  apply List.ext_getElem?
  intro k
  by_cases hk : k < (sortedUniverse ppi₁ dt₁ gd₁).length *
      (sortedUniverse ppi₁ dt₁ gd₁).length
  · have hN : 0 < (sortedUniverse ppi₁ dt₁ gd₁).length := by
      by_contra h
      push_neg at h
      interval_cases hN' : (sortedUniverse ppi₁ dt₁ gd₁).length
      · simp at hk
    have hi : k / (sortedUniverse ppi₁ dt₁ gd₁).length <
        (sortedUniverse ppi₁ dt₁ gd₁).length := by
      rw [Nat.div_lt_iff_lt_mul hN]
      exact hk
    have hj : k % (sortedUniverse ppi₁ dt₁ gd₁).length <
        (sortedUniverse ppi₁ dt₁ gd₁).length := Nat.mod_lt _ hN
    have hdecomp : k = (k / (sortedUniverse ppi₁ dt₁ gd₁).length) *
        (sortedUniverse ppi₁ dt₁ gd₁).length +
        k % (sortedUniverse ppi₁ dt₁ gd₁).length := by
      rw [Nat.mul_comm]
      exact (Nat.div_add_mod k _).symm
    rw [hdecomp, matrixEntries_getElem? ppi₁ dt₁ gd₁ cutoff _ _ hi hj]
    have hi₂ := hu ▸ hi
    have hj₂ := hu ▸ hj
    rw [hu]
    rw [matrixEntries_getElem? ppi₂ dt₂ gd₂ cutoff _ _ hi₂ hj₂]
    rw [entryValue_congr hp]
  · push_neg at hk
    rw [List.getElem?_eq_none, List.getElem?_eq_none]
    · rw [length_matrixEntries, ← hu]
      exact hk
    · rw [length_matrixEntries]
      exact hk

/-- **C9.** The universe index is the lexicographically sorted,
duplicate-free union of the input genes, each gene filed next to its 0-based
sort position; and the produced index-file text and matrix-file bytes depend
only on the input *sets* — any two inputs with the same membership (any row
order, any duplicate multiplicity, any set iteration order) yield
byte-identical index and matrix files.  Re-running on identical inputs is
the reflexive instance. -/
theorem precompute_deterministic :
    (∀ (ppi : List (String × String)) (dtGenes gdGenes : List String),
        List.Sorted (· ≤ ·) (sortedUniverse ppi dtGenes gdGenes) ∧
        (sortedUniverse ppi dtGenes gdGenes).Nodup ∧
        (∀ g, g ∈ sortedUniverse ppi dtGenes gdGenes ↔
          g ∈ rawGenes ppi dtGenes gdGenes) ∧
        (∀ g, g ∈ sortedUniverse ppi dtGenes gdGenes →
          (g, (sortedUniverse ppi dtGenes gdGenes).indexOf g) ∈
            geneIndexFile (sortedUniverse ppi dtGenes gdGenes)))
    ∧ (∀ (ppi₁ ppi₂ : List (String × String)) (dt₁ dt₂ gd₁ gd₂ : List String)
        (cutoff : Option Nat),
        (∀ e, e ∈ ppi₁ ↔ e ∈ ppi₂) → (∀ g, g ∈ dt₁ ↔ g ∈ dt₂) →
        (∀ g, g ∈ gd₁ ↔ g ∈ gd₂) →
        indexCsvLines (geneIndexFile (sortedUniverse ppi₁ dt₁ gd₁)) =
          indexCsvLines (geneIndexFile (sortedUniverse ppi₂ dt₂ gd₂)) ∧
        matrixFileBytes (matrixEntries ppi₁ dt₁ gd₁ cutoff) =
          matrixFileBytes (matrixEntries ppi₂ dt₂ gd₂ cutoff)) := by
  constructor
  · intro ppi dtGenes gdGenes
    refine ⟨List.sorted_insertionSort _ _,
      sortedUniverse_nodup ppi dtGenes gdGenes,
      mem_sortedUniverse_iff ppi dtGenes gdGenes, ?_⟩
    intro g hg
    set u := sortedUniverse ppi dtGenes gdGenes
    have hi : u.indexOf g < u.length := List.indexOf_lt_length.mpr hg
    rw [geneIndexFile, List.mem_iff_getElem]
    refine ⟨u.indexOf g, ?_, ?_⟩
    · rw [List.length_zip, List.length_range]
      omega
    · rw [List.getElem_zip]
      simp [List.indexOf_get]
  · intro ppi₁ ppi₂ dt₁ dt₂ gd₁ gd₂ cutoff hp hdt hgd
    constructor
    · rw [sortedUniverse_congr hp hdt hgd]
    · rw [matrixEntries_congr cutoff hp hdt hgd]

/-- Witness for C9: two edge/target tables with different row order and
duplicate multiplicity but the same membership produce identical files. -/
theorem precompute_deterministic_witness :
    (∀ e, e ∈ [("B", "A")] ↔ e ∈ [("B", "A"), ("B", "A")]) ∧
    (∀ g, g ∈ ["C"] ↔ g ∈ ["C", "C"]) ∧
    indexCsvLines (geneIndexFile (sortedUniverse [("B", "A")] ["C"] [])) =
      indexCsvLines (geneIndexFile
        (sortedUniverse [("B", "A"), ("B", "A")] ["C", "C"] [])) ∧
    matrixFileBytes (matrixEntries [("B", "A")] ["C"] [] none) =
      matrixFileBytes
        (matrixEntries [("B", "A"), ("B", "A")] ["C", "C"] [] none) :=
  ⟨fun e => by simp, fun g => by simp,
    precompute_deterministic.2 [("B", "A")] [("B", "A"), ("B", "A")]
      ["C"] ["C", "C"] [] [] none (fun e => by simp) (fun g => by simp)
      (fun g => Iff.rfl)⟩

/-- **C5** (divergence demonstration).  On empty inputs the run writes the
(header-only) gene-index file and only then fails while allocating the
zero-sized matrix memmap — there is no explicit `EmptyUniverse` signal and
the abort does not happen before output is written; in general the first
file event of every run is the index-file write. -/
theorem emptyUniverse_run_writes_index_first :
    precomputeRun [] [] [] none =
      [RunEvent.wroteIndexFile [], RunEvent.matrixAllocFailed] ∧
    (∀ (ppi : List (String × String)) (dtGenes gdGenes : List String)
        (cutoff : Option Nat),
        (precomputeRun ppi dtGenes gdGenes cutoff).head? =
          some (RunEvent.wroteIndexFile
            (geneIndexFile (sortedUniverse ppi dtGenes gdGenes)))) := by
  constructor
  · rfl
  · intro ppi dtGenes gdGenes cutoff
    rw [precomputeRun]
    by_cases h : (sortedUniverse ppi dtGenes gdGenes).length = 0
    · rw [if_pos h]
      rfl
    · rw [if_neg h]
      rfl

/-! ## Overlap tables (`src/ddh/scoring.py`): the naive
`compute_overlap_table` over the grouped maps versus the vectorized
`compute_overlap_table_fast`. -/

/-- The `DrugTargetAssoc` record of `src/ddh/data_models.py`. -/
structure DrugTargetAssoc where
  drug_id : String
  gene_id : String
  source : String
  score : Option ℚ := none
deriving DecidableEq

/-- The `GeneDiseaseAssoc` record of `src/ddh/data_models.py`. -/
structure GeneDiseaseAssoc where
  gene_id : String
  disease_id : String
  source : String
  score : Option ℚ := none
deriving DecidableEq

/-- Python set insertion (`s.add(v)`), on the duplicate-free list model. -/
def insertAbsent (l : List String) (v : String) : List String :=
  if v ∈ l then l else l ++ [v]

/-- One step of the grouping loops in `build_drug_target_map` /
`build_disease_gene_map`: create the key with a fresh singleton set, or add
the value to the existing set. -/
def dictInsert (m : List (String × List String)) (k v : String) :
    List (String × List String) :=
  if m.any fun p => p.1 == k then
    m.map fun p => if p.1 == k then (p.1, insertAbsent p.2 v) else p
  else m ++ [(k, [v])]

/-- Embedding of `build_drug_target_map` (`src/ddh/scoring.py`). -/
def build_drug_target_map (dts : List DrugTargetAssoc) :
    List (String × List String) :=
  dts.foldl (fun m a => dictInsert m a.drug_id a.gene_id) []

/-- Embedding of `build_disease_gene_map` (`src/ddh/scoring.py`). -/
def build_disease_gene_map (gds : List GeneDiseaseAssoc) :
    List (String × List String) :=
  gds.foldl (fun m a => dictInsert m a.disease_id a.gene_id) []

/-- Sort key of the final `sort_values(by=["n_overlap", "jaccard",
"drug_id", "disease_id"], ascending=[False, False, True, True])`:
lexicographic on (negated) overlap count, (negated) Jaccard, then the
identifiers. -/
def rowKey (r : OverlapRow) : ℚ ×ₗ ℚ ×ₗ String ×ₗ String :=
  toLex (-(r.n_overlap : ℚ), toLex (-r.jaccard, toLex (r.drug_id, r.disease_id)))

def rowLE (r s : OverlapRow) : Prop := rowKey r ≤ rowKey s

instance : DecidableRel rowLE := fun r s =>
  inferInstanceAs (Decidable (rowKey r ≤ rowKey s))

instance : IsTotal OverlapRow rowLE := ⟨fun a b => le_total (rowKey a) (rowKey b)⟩

instance : IsTrans OverlapRow rowLE := ⟨fun _ _ _ h1 h2 => le_trans h1 h2⟩

/-- The row order of both overlap tables: every output has pairwise-distinct
`(drug_id, disease_id)` keys, so the 4-key sort determines a unique order
whatever sorting algorithm pandas uses. -/
def sortRows (rows : List OverlapRow) : List OverlapRow :=
  List.insertionSort rowLE rows

/-- The inner body of `compute_overlap_table`'s nested loops for one
(drug entry, disease entry) combination: skip the pair unless the gene
intersection is non-empty; `jaccard = n_overlap / len(union)` guarded by
`if union`; `overlapping_genes = ";".join(sorted(inter))`. -/
def naiveRow (dp sp : String × List String) : Option OverlapRow :=
  let inter := dp.2.filter fun g => decide (g ∈ sp.2)
  if inter.isEmpty then none
  else
    let ulen := dp.2.length + (sp.2.filter fun g => decide (g ∉ dp.2)).length
    some {
      drug_id := dp.1
      disease_id := sp.1
      n_overlap := inter.length
      overlapping_genes :=
        String.intercalate ";" (List.insertionSort (· ≤ ·) inter)
      jaccard := if ulen = 0 then 0 else (inter.length : ℚ) / (ulen : ℚ) }

/-- Embedding of `compute_overlap_table` (`src/ddh/scoring.py`): nested
loops over the two grouped maps (dict iteration order is canonicalized by
the final 4-key sort, whose keys are unique per row). -/
def compute_overlap_table
    (drug_to_genes disease_to_genes : List (String × List String)) :
    List OverlapRow :=
  sortRows (drug_to_genes.flatMap fun dp =>
    disease_to_genes.filterMap fun sp => naiveRow dp sp)

/-- The (drug, gene) projection of the drug-target records (`dt_df`). -/
def dtPairs (dts : List DrugTargetAssoc) : List (String × String) :=
  dts.map fun a => (a.drug_id, a.gene_id)

/-- The (gene, disease) projection of the gene-disease records (`gd_df`). -/
def gdPairs (gds : List GeneDiseaseAssoc) : List (String × String) :=
  gds.map fun a => (a.gene_id, a.disease_id)

/-- `merged = dt_df.merge(gd_df, on="gene_id")`: every (drug, gene, disease)
triple with the gene shared (inner-join row order is irrelevant under the
final sort and the per-group aggregation). -/
def mergedTriples (dts : List DrugTargetAssoc) (gds : List GeneDiseaseAssoc) :
    List (String × String × String) :=
  (dtPairs dts).flatMap fun p =>
    ((gdPairs gds).filter fun q => q.1 == p.2).map fun q => (p.1, p.2, q.2)

/-- The distinct `(drug_id, disease_id)` group keys of the join. -/
def fastKeys (dts : List DrugTargetAssoc) (gds : List GeneDiseaseAssoc) :
    List (String × String) :=
  ((mergedTriples dts gds).map fun t => (t.1, t.2.2)).dedup

/-- The aggregated output row for one group key: distinct-gene count
(`nunique`), sorted semicolon join, and `jaccard = n_overlap /
(n_drug_genes + n_disease_genes - n_overlap)` (the `replace({0: pd.NA})`
guard is the 0 branch, unreachable for a non-empty group). -/
def fastRow (dts : List DrugTargetAssoc) (gds : List GeneDiseaseAssoc)
    (k : String × String) : OverlapRow :=
  let genes := (((mergedTriples dts gds).filter fun t =>
    t.1 == k.1 && t.2.2 == k.2).map fun t => t.2.1).dedup
  let nD := (((dtPairs dts).filter fun p => p.1 == k.1).map Prod.snd).dedup.length
  let nS := (((gdPairs gds).filter fun q => q.2 == k.2).map Prod.fst).dedup.length
  let usize := nD + nS - genes.length
  { drug_id := k.1
    disease_id := k.2
    n_overlap := genes.length
    overlapping_genes :=
      String.intercalate ";" (List.insertionSort (· ≤ ·) genes)
    jaccard := if usize = 0 then 0 else (genes.length : ℚ) / (usize : ℚ) }

/-- Embedding of `compute_overlap_table_fast` (`src/ddh/scoring.py`): early
empty-input and empty-join returns (empty frames), else the aggregated
groups under the final 4-key sort.  The `dropna` calls drop nothing:
identifiers are strings ("no null identifiers"). -/
def compute_overlap_table_fast (dts : List DrugTargetAssoc)
    (gds : List GeneDiseaseAssoc) : List OverlapRow :=
  if dts.isEmpty || gds.isEmpty then []
  else if (mergedTriples dts gds).isEmpty then []
  else sortRows ((fastKeys dts gds).map (fastRow dts gds))

/-! ### Properties of the grouping maps -/

theorem mem_insertAbsent (l : List String) (v x : String) :
    x ∈ insertAbsent l v ↔ x ∈ l ∨ x = v := by
  rw [insertAbsent]
  by_cases h : v ∈ l
  · rw [if_pos h]
    constructor
    · exact Or.inl
    · rintro (hx | rfl)
      · exact hx
      · exact h
  · rw [if_neg h]
    simp

theorem nodup_insertAbsent (l : List String) (v : String) (h : l.Nodup) :
    (insertAbsent l v).Nodup := by
  rw [insertAbsent]
  by_cases hm : v ∈ l
  · rwa [if_pos hm]
  · rw [if_neg hm, List.nodup_append]
    exact ⟨h, List.nodup_singleton v,
      fun a ha hav => hm ((List.mem_singleton.mp hav) ▸ ha)⟩

theorem mem_foldl_insertAbsent (l : List String) (base : List String)
    (x : String) :
    x ∈ l.foldl insertAbsent base ↔ x ∈ base ∨ x ∈ l := by
  induction l generalizing base with
  | nil => simp
  | cons v t ih =>
    rw [List.foldl_cons, ih, mem_insertAbsent]
    simp only [List.mem_cons]
    tauto

theorem nodup_foldl_insertAbsent (l : List String) (base : List String)
    (h : base.Nodup) : (l.foldl insertAbsent base).Nodup := by
  induction l generalizing base with
  | nil => exact h
  | cons v t ih => exact ih _ (nodup_insertAbsent base v h)

theorem lookup_cons' (k a : String) (b : List String)
    (t : List (String × List String)) :
    List.lookup k ((a, b) :: t) = if k = a then some b else List.lookup k t := by
  rw [List.lookup_cons]
  by_cases h : k = a
  · rw [if_pos h]
    have : (k == a) = true := by simpa using h
    rw [this]
  · rw [if_neg h]
    have : (k == a) = false := by simpa using h
    rw [this]

theorem lookup_map_update_ne (m : List (String × List String))
    (k v k' : String) (hne : k' ≠ k) :
    (m.map fun p => if p.1 == k then (p.1, insertAbsent p.2 v) else p).lookup k'
      = m.lookup k' := by
  induction m with
  | nil => rfl
  | cons p t ih =>
    rw [List.map_cons]
    obtain ⟨a, b⟩ := p
    by_cases hpk : (a == k) = true
    · rw [if_pos hpk]
      rw [beq_iff_eq] at hpk
      dsimp only
      rw [lookup_cons' k' a _ _, lookup_cons' k' a b t,
        if_neg (hpk ▸ hne), if_neg (hpk ▸ hne), ih]
    · rw [if_neg hpk]
      rw [lookup_cons' k' a b _, lookup_cons' k' a b t]
      by_cases hk'a : k' = a
      · rw [if_pos hk'a, if_pos hk'a]
      · rw [if_neg hk'a, if_neg hk'a, ih]

theorem lookup_map_update (m : List (String × List String)) (k v : String)
    (hany : (m.any fun p => p.1 == k) = true) :
    (m.map fun p => if p.1 == k then (p.1, insertAbsent p.2 v) else p).lookup k
      = some (insertAbsent ((m.lookup k).getD []) v) := by
  induction m with
  | nil => cases hany
  | cons p t ih =>
    rw [List.map_cons]
    obtain ⟨a, b⟩ := p
    by_cases hpk : (a == k) = true
    · rw [if_pos hpk]
      rw [beq_iff_eq] at hpk
      subst hpk
      dsimp only
      rw [lookup_cons' a a _ _, lookup_cons' a a b t, if_pos rfl, if_pos rfl]
      rfl
    · rw [if_neg hpk]
      rw [List.any_cons, Bool.or_eq_true] at hany
      rcases hany with h | h
      · exact absurd h hpk
      · have hka : k ≠ a := by
          rw [Bool.not_eq_true, beq_eq_false_iff_ne] at hpk
          exact fun he => hpk he.symm
        rw [lookup_cons' k a b _, lookup_cons' k a b t, if_neg hka,
          if_neg hka, ih h]

theorem lookup_eq_none_of_not_any (m : List (String × List String))
    (k : String) (h : (m.any fun p => p.1 == k) = false) :
    m.lookup k = none := by
  induction m with
  | nil => rfl
  | cons p t ih =>
    rw [List.any_cons, Bool.or_eq_false_iff] at h
    obtain ⟨a, b⟩ := p
    rw [lookup_cons' k a b t, if_neg ?_, ih h.2]
    have := h.1
    rw [beq_eq_false_iff_ne] at this
    exact fun he => this he.symm

/-- Effect of one `dictInsert` on lookups. -/
theorem lookup_dictInsert (m : List (String × List String)) (k v k' : String) :
    (dictInsert m k v).lookup k' =
      if k' = k then some (insertAbsent ((m.lookup k).getD []) v)
      else m.lookup k' := by
  rw [dictInsert]
  by_cases hany : (m.any fun p => p.1 == k) = true
  · rw [if_pos hany]
    by_cases hk : k' = k
    · subst hk
      rw [if_pos rfl, lookup_map_update m k' v hany]
    · rw [if_neg hk, lookup_map_update_ne m k v k' hk]
  · rw [if_neg hany]
    rw [Bool.not_eq_true] at hany
    rw [List.lookup_append]
    by_cases hk : k' = k
    · subst hk
      rw [if_pos rfl, lookup_eq_none_of_not_any m k' hany,
        lookup_cons' k' k' [v] [], if_pos rfl]
      rfl
    · rw [if_neg hk, lookup_cons' k' k [v] [], if_neg hk]
      cases m.lookup k' <;> rfl

/-- Both grouping builders are this fold over their (key, gene)
projections. -/
def buildMap (kvs : List (String × String)) : List (String × List String) :=
  kvs.foldl (fun m p => dictInsert m p.1 p.2) []

theorem build_drug_target_map_eq (dts : List DrugTargetAssoc) :
    build_drug_target_map dts =
      buildMap (dts.map fun a => (a.drug_id, a.gene_id)) := by
  rw [build_drug_target_map, buildMap, List.foldl_map]

theorem build_disease_gene_map_eq (gds : List GeneDiseaseAssoc) :
    build_disease_gene_map gds =
      buildMap (gds.map fun a => (a.disease_id, a.gene_id)) := by
  rw [build_disease_gene_map, buildMap, List.foldl_map]

theorem lookup_foldl_dictInsert (kvs : List (String × String))
    (m : List (String × List String)) (k : String) :
    (kvs.foldl (fun m p => dictInsert m p.1 p.2) m).lookup k =
      if (kvs.filter fun p => p.1 == k).isEmpty then m.lookup k
      else some (((kvs.filter fun p => p.1 == k).map Prod.snd).foldl
        insertAbsent ((m.lookup k).getD [])) := by
  induction kvs generalizing m with
  | nil => simp
  | cons p t ih =>
    obtain ⟨k₀, v₀⟩ := p
    rw [List.foldl_cons]
    dsimp only
    rw [ih (dictInsert m k₀ v₀)]
    by_cases hk : k₀ = k
    · subst hk
      have hfil : ((k₀, v₀) :: t).filter (fun p => p.1 == k₀) =
          (k₀, v₀) :: t.filter (fun p => p.1 == k₀) := by
        rw [List.filter_cons]
        simp
      rw [hfil, List.map_cons]
      have hmd : ((dictInsert m k₀ v₀).lookup k₀).getD [] =
          insertAbsent ((m.lookup k₀).getD []) v₀ := by
        rw [lookup_dictInsert, if_pos rfl]
        rfl
      by_cases ht : (t.filter fun p => p.1 == k₀).isEmpty
      · rw [if_pos ht]
        rw [List.isEmpty_iff] at ht
        rw [ht, List.map_nil]
        rw [if_neg (by simp), lookup_dictInsert, if_pos rfl]
        rfl
      · rw [if_neg ht, if_neg (by simp), hmd, List.foldl_cons]
    · have hfil : ((k₀, v₀) :: t).filter (fun p => p.1 == k) =
          t.filter (fun p => p.1 == k) := by
        rw [List.filter_cons]
        have : ((k₀, v₀).1 == k) = false := by simpa using hk
        simp [this]
      have hmd : (dictInsert m k₀ v₀).lookup k = m.lookup k := by
        rw [lookup_dictInsert, if_neg fun h => hk h.symm]
      rw [hfil, hmd]

theorem lookup_buildMap (kvs : List (String × String)) (k : String) :
    (buildMap kvs).lookup k =
      if (kvs.filter fun p => p.1 == k).isEmpty then none
      else some (((kvs.filter fun p => p.1 == k).map Prod.snd).foldl
        insertAbsent []) := by
  rw [buildMap, lookup_foldl_dictInsert]
  rfl

/-- A grouped set holds exactly the values filed under its key. -/
theorem lookup_buildMap_some {kvs : List (String × String)} {k : String}
    {gs : List String} (h : (buildMap kvs).lookup k = some gs) :
    gs.Nodup ∧ ∀ g, g ∈ gs ↔ (k, g) ∈ kvs := by
  rw [lookup_buildMap] at h
  by_cases he : (kvs.filter fun p => p.1 == k).isEmpty
  · rw [if_pos he] at h
    cases h
  · rw [if_neg he] at h
    cases h
    refine ⟨nodup_foldl_insertAbsent _ _ (List.nodup_nil), ?_⟩
    intro g
    rw [mem_foldl_insertAbsent]
    simp only [List.not_mem_nil, false_or, List.mem_map, List.mem_filter]
    constructor
    · rintro ⟨p, ⟨hp, hpk⟩, rfl⟩
      rw [beq_iff_eq] at hpk
      rwa [← hpk, Prod.mk.eta]
    · intro hkg
      exact ⟨(k, g), ⟨hkg, by simp⟩, rfl⟩

theorem lookup_buildMap_none_iff (kvs : List (String × String)) (k : String) :
    (buildMap kvs).lookup k = none ↔ ∀ g, (k, g) ∉ kvs := by
  rw [lookup_buildMap]
  by_cases he : (kvs.filter fun p => p.1 == k).isEmpty
  · rw [if_pos he]
    rw [List.isEmpty_iff, List.filter_eq_nil_iff] at he
    simp only [true_iff]
    intro g hg
    exact he _ hg (by simp)
  · rw [if_neg he]
    simp only [List.isEmpty_iff, List.filter_eq_nil_iff] at he
    push_neg at he
    obtain ⟨p, hp, hpk⟩ := he
    rw [beq_iff_eq] at hpk
    constructor
    · intro h
      cases h
    · intro h
      exact absurd (show (k, p.2) ∈ kvs by rwa [← hpk, Prod.mk.eta]) (h p.2)

theorem keys_dictInsert_nodup (m : List (String × List String)) (k v : String)
    (h : (m.map Prod.fst).Nodup) :
    ((dictInsert m k v).map Prod.fst).Nodup := by
  rw [dictInsert]
  by_cases hany : (m.any fun p => p.1 == k) = true
  · rw [if_pos hany]
    have : ((m.map fun p => if p.1 == k then (p.1, insertAbsent p.2 v) else p).map
        Prod.fst) = m.map Prod.fst := by
      rw [List.map_map]
      apply List.map_congr_left
      intro p _
      show (if (p.1 == k) = true then (p.1, insertAbsent p.2 v) else p).1 = p.1
      split <;> rfl
    rw [this]
    exact h
  · rw [if_neg hany, List.map_append]
    rw [List.nodup_append]
    refine ⟨h, by simp, ?_⟩
    intro a ha hak
    simp only [List.map_cons, List.map_nil, List.mem_singleton] at hak
    subst hak
    rw [Bool.not_eq_true, List.any_eq_false] at hany
    simp only [List.mem_map] at ha
    obtain ⟨p, hp, hpa⟩ := ha
    exact absurd (by simpa using hpa) (hany p hp)

theorem keys_buildMap_nodup (kvs : List (String × String)) :
    ((buildMap kvs).map Prod.fst).Nodup := by
  rw [buildMap]
  have key : ∀ (l : List (String × String)) (m : List (String × List String)),
      (m.map Prod.fst).Nodup →
      ((l.foldl (fun m p => dictInsert m p.1 p.2) m).map Prod.fst).Nodup := by
    intro l
    induction l with
    | nil => intro m hm; exact hm
    | cons p t ih =>
      intro m hm
      exact ih _ (keys_dictInsert_nodup m p.1 p.2 hm)
  exact key kvs [] (by simp)

/-- In a key-duplicate-free association list, membership of an entry is the
same as its lookup succeeding. -/
theorem mem_iff_lookup {m : List (String × List String)}
    (hk : (m.map Prod.fst).Nodup) (d : String) (gs : List String) :
    (d, gs) ∈ m ↔ m.lookup d = some gs := by
  induction m with
  | nil => simp
  | cons p t ih =>
    obtain ⟨a, b⟩ := p
    rw [List.map_cons] at hk
    rw [List.mem_cons, lookup_cons' d a b t]
    by_cases hda : d = a
    · subst hda
      rw [if_pos rfl]
      constructor
      · rintro (h | h)
        · cases h
          rfl
        · have hmem : d ∈ t.map Prod.fst := List.mem_map.mpr ⟨(d, gs), h, rfl⟩
          exact absurd hmem (List.nodup_cons.mp hk).1
      · intro h
        cases h
        exact Or.inl rfl
    · rw [if_neg hda]
      rw [ih (List.nodup_cons.mp hk).2]
      constructor
      · rintro (h | h)
        · cases h
          exact absurd rfl hda
        · exact h
      · exact Or.inr

/-! ### Canonical per-pair row and field equalities -/

/-- The (disease, gene) projection grouped by `build_disease_gene_map`. -/
def gdPairsByDisease (gds : List GeneDiseaseAssoc) : List (String × String) :=
  gds.map fun a => (a.disease_id, a.gene_id)

theorem mem_gdPairs_swap (gds : List GeneDiseaseAssoc) (g s : String) :
    (g, s) ∈ gdPairs gds ↔ (s, g) ∈ gdPairsByDisease gds := by
  rw [gdPairs, gdPairsByDisease, List.mem_map, List.mem_map]
  constructor
  · rintro ⟨b, hb, heq⟩
    cases heq
    exact ⟨b, hb, rfl⟩
  · rintro ⟨b, hb, heq⟩
    cases heq
    exact ⟨b, hb, rfl⟩

/-- A drug–disease pair with at least one shared gene. -/
def OverlapPair (dts : List DrugTargetAssoc) (gds : List GeneDiseaseAssoc)
    (d s : String) : Prop :=
  ∃ g, (d, g) ∈ dtPairs dts ∧ (g, s) ∈ gdPairs gds

/-- The target set of drug `d` as the grouping loop builds it. -/
def drugSet (dts : List DrugTargetAssoc) (d : String) : List String :=
  (((dtPairs dts).filter fun p => p.1 == d).map Prod.snd).foldl insertAbsent []

/-- The gene set of disease `s` as the grouping loop builds it. -/
def diseaseSet (gds : List GeneDiseaseAssoc) (s : String) : List String :=
  (((gdPairsByDisease gds).filter fun p => p.1 == s).map Prod.snd).foldl
    insertAbsent []

theorem drugSet_nodup (dts : List DrugTargetAssoc) (d : String) :
    (drugSet dts d).Nodup :=
  nodup_foldl_insertAbsent _ _ List.nodup_nil

theorem diseaseSet_nodup (gds : List GeneDiseaseAssoc) (s : String) :
    (diseaseSet gds s).Nodup :=
  nodup_foldl_insertAbsent _ _ List.nodup_nil

theorem mem_drugSet (dts : List DrugTargetAssoc) (d g : String) :
    g ∈ drugSet dts d ↔ (d, g) ∈ dtPairs dts := by
  rw [drugSet, mem_foldl_insertAbsent]
  simp only [List.not_mem_nil, false_or, List.mem_map, List.mem_filter]
  constructor
  · rintro ⟨p, ⟨hp, hpk⟩, rfl⟩
    rw [beq_iff_eq] at hpk
    rwa [← hpk, Prod.mk.eta]
  · intro h
    exact ⟨(d, g), ⟨h, by simp⟩, rfl⟩

theorem mem_diseaseSet (gds : List GeneDiseaseAssoc) (s g : String) :
    g ∈ diseaseSet gds s ↔ (g, s) ∈ gdPairs gds := by
  rw [diseaseSet, mem_foldl_insertAbsent, mem_gdPairs_swap]
  simp only [List.not_mem_nil, false_or, List.mem_map, List.mem_filter]
  constructor
  · rintro ⟨p, ⟨hp, hpk⟩, rfl⟩
    rw [beq_iff_eq] at hpk
    rwa [← hpk, Prod.mk.eta]
  · intro h
    exact ⟨(s, g), ⟨h, by simp⟩, rfl⟩

/-- The overlap row both pipelines produce for a pair `(d, s)`. -/
def canonRow (dts : List DrugTargetAssoc) (gds : List GeneDiseaseAssoc)
    (d s : String) : OverlapRow :=
  let gs := drugSet dts d
  let ss := diseaseSet gds s
  let inter := gs.filter fun g => decide (g ∈ ss)
  let ulen := gs.length + (ss.filter fun g => decide (g ∉ gs)).length
  { drug_id := d
    disease_id := s
    n_overlap := inter.length
    overlapping_genes :=
      String.intercalate ";" (List.insertionSort (· ≤ ·) inter)
    jaccard := if ulen = 0 then 0 else (inter.length : ℚ) / (ulen : ℚ) }

/-- Two duplicate-free gene lists with the same membership sort to the same
list and have the same length. -/
theorem nodup_same_mem_sort_eq {l₁ l₂ : List String} (h1 : l₁.Nodup)
    (h2 : l₂.Nodup) (h : ∀ g, g ∈ l₁ ↔ g ∈ l₂) :
    l₁.length = l₂.length ∧
      List.insertionSort (· ≤ ·) l₁ = List.insertionSort (· ≤ ·) l₂ := by
  have hp : l₁.Perm l₂ := (List.perm_ext_iff_of_nodup h1 h2).mpr h
  refine ⟨hp.length_eq, ?_⟩
  exact List.eq_of_perm_of_sorted
    (((List.perm_insertionSort _ l₁).trans hp).trans
      (List.perm_insertionSort _ l₂).symm)
    (List.sorted_insertionSort _ l₁) (List.sorted_insertionSort _ l₂)

/-- Row-key antisymmetry pins down the identifiers. -/
theorem rowLE_antisymm_ids {a b : OverlapRow} (h1 : rowLE a b)
    (h2 : rowLE b a) : a.drug_id = b.drug_id ∧ a.disease_id = b.disease_id := by
  have hk : rowKey a = rowKey b := le_antisymm h1 h2
  rw [rowKey, rowKey] at hk
  have h3 := congrArg (fun x => (ofLex x).2) hk
  simp only at h3
  have h4 := congrArg (fun x => (ofLex x).2) h3
  simp only at h4
  have h5 := congrArg (fun x => (ofLex x).1) h4
  have h6 := congrArg (fun x => (ofLex x).2) h4
  exact ⟨h5, h6⟩

/-- Sorted lists that are permutations of each other coincide when the
order is antisymmetric on the elements actually present. -/
theorem eq_of_perm_sorted_rows :
    ∀ (l₁ l₂ : List OverlapRow), l₁.Perm l₂ → l₁.Sorted rowLE →
    l₂.Sorted rowLE →
    (∀ a ∈ l₁, ∀ b ∈ l₁, a.drug_id = b.drug_id → a.disease_id = b.disease_id →
      a = b) →
    l₁ = l₂ := by
  intro l₁
  induction l₁ with
  | nil =>
    intro l₂ hp _ _ _
    exact hp.nil_eq
  | cons a t ih =>
    intro l₂ hp hs₁ hs₂ hinj
    cases l₂ with
    | nil => exact absurd hp.symm.nil_eq (by simp)
    | cons b t₂ =>
      have hab : a = b := by
        by_cases h : a = b
        · exact h
        · have ha2 : a ∈ b :: t₂ := hp.subset (List.mem_cons_self a t)
          have hat2 : a ∈ t₂ := by
            rcases List.mem_cons.mp ha2 with h' | h'
            · exact absurd h' h
            · exact h'
          have hb1 : b ∈ a :: t := hp.symm.subset (List.mem_cons_self b t₂)
          have hbt : b ∈ t := by
            rcases List.mem_cons.mp hb1 with h' | h'
            · exact absurd h'.symm h
            · exact h'
          have h1 : rowLE a b := (List.sorted_cons.mp hs₁).1 b hbt
          have h2 : rowLE b a := (List.sorted_cons.mp hs₂).1 a hat2
          obtain ⟨hd, hs⟩ := rowLE_antisymm_ids h1 h2
          exact hinj a (List.mem_cons_self a t) b (List.mem_cons_of_mem a hbt)
            hd hs
      subst hab
      have htp : t.Perm t₂ := hp.cons_inv
      rw [ih t₂ htp (List.sorted_cons.mp hs₁).2 (List.sorted_cons.mp hs₂).2
        fun x hx y hy => hinj x (List.mem_cons_of_mem a hx) y
          (List.mem_cons_of_mem a hy)]

theorem sortRows_eq_of_perm (l₁ l₂ : List OverlapRow) (hp : l₁.Perm l₂)
    (hinj : ∀ a ∈ l₁, ∀ b ∈ l₁, a.drug_id = b.drug_id →
      a.disease_id = b.disease_id → a = b) :
    sortRows l₁ = sortRows l₂ := by
  rw [sortRows, sortRows]
  refine eq_of_perm_sorted_rows _ _
    ((List.perm_insertionSort _ l₁).trans
      (hp.trans (List.perm_insertionSort _ l₂).symm))
    (List.sorted_insertionSort _ l₁) (List.sorted_insertionSort _ l₂) ?_
  intro x hx y hy
  exact hinj x ((List.perm_insertionSort _ l₁).subset hx)
    y ((List.perm_insertionSort _ l₁).subset hy)

/-- `filterMap` over a list with distinct keys is duplicate-free when each
produced element records its origin's key. -/
theorem nodup_filterMap_keyed {α β : Type} (l : List α) (f : α → Option β)
    (key : α → String) (tag : β → String)
    (hk : (l.map key).Nodup) (ht : ∀ a b, f a = some b → tag b = key a) :
    (l.filterMap f).Nodup := by
  induction l with
  | nil => simp
  | cons a t ih =>
    rw [List.map_cons, List.nodup_cons] at hk
    rw [List.filterMap_cons]
    cases hfa : f a with
    | none => exact ih hk.2
    | some b =>
      rw [List.nodup_cons]
      refine ⟨?_, ih hk.2⟩
      intro hb
      rw [List.mem_filterMap] at hb
      obtain ⟨a', ha', hfa'⟩ := hb
      exact hk.1 (((ht a b hfa) ▸ (ht a' b hfa')) ▸
        List.mem_map.mpr ⟨a', ha', rfl⟩)

/-- `flatMap` over a list with distinct keys is duplicate-free when each
inner list is duplicate-free and tags its elements with its origin's key. -/
theorem nodup_flatMap_keyed {α β : Type} (l : List α) (F : α → List β)
    (key : α → String) (tag : β → String)
    (hk : (l.map key).Nodup) (ht : ∀ a b, b ∈ F a → tag b = key a)
    (hn : ∀ a, (F a).Nodup) : (l.flatMap F).Nodup := by
  induction l with
  | nil => simp
  | cons a t ih =>
    rw [List.map_cons, List.nodup_cons] at hk
    rw [List.flatMap_cons, List.nodup_append]
    refine ⟨hn a, ih hk.2, ?_⟩
    intro b hba hbt
    rw [List.mem_flatMap] at hbt
    obtain ⟨a', ha', hba'⟩ := hbt
    exact hk.1 (((ht a b hba) ▸ (ht a' b hba')) ▸
      List.mem_map.mpr ⟨a', ha', rfl⟩)

theorem build_dt_lookup_of_pair {dts : List DrugTargetAssoc} {d g : String}
    (h : (d, g) ∈ dtPairs dts) :
    (build_drug_target_map dts).lookup d = some (drugSet dts d) := by
  rw [build_drug_target_map_eq, lookup_buildMap]
  rw [if_neg ?_]
  · rw [drugSet, dtPairs]
  · rw [List.isEmpty_iff, List.filter_eq_nil_iff]
    push_neg
    exact ⟨(d, g), by rwa [dtPairs] at h, by simp⟩

theorem build_gd_lookup_of_pair {gds : List GeneDiseaseAssoc} {s g : String}
    (h : (s, g) ∈ gdPairsByDisease gds) :
    (build_disease_gene_map gds).lookup s = some (diseaseSet gds s) := by
  rw [build_disease_gene_map_eq, lookup_buildMap]
  rw [if_neg ?_]
  · rw [diseaseSet, gdPairsByDisease]
  · rw [List.isEmpty_iff, List.filter_eq_nil_iff]
    push_neg
    exact ⟨(s, g), by rwa [gdPairsByDisease] at h, by simp⟩

theorem snd_of_mem_build_dt {dts : List DrugTargetAssoc}
    {dp : String × List String} (h : dp ∈ build_drug_target_map dts) :
    dp.2 = drugSet dts dp.1 := by
  obtain ⟨d, gs⟩ := dp
  rw [build_drug_target_map_eq] at h
  rw [mem_iff_lookup (keys_buildMap_nodup _) d gs, lookup_buildMap] at h
  by_cases he : ((dts.map fun a => (a.drug_id, a.gene_id)).filter
      fun p => p.1 == d).isEmpty
  · rw [if_pos he] at h
    cases h
  · rw [if_neg he] at h
    cases h
    rfl

theorem snd_of_mem_build_gd {gds : List GeneDiseaseAssoc}
    {sp : String × List String} (h : sp ∈ build_disease_gene_map gds) :
    sp.2 = diseaseSet gds sp.1 := by
  obtain ⟨s, ss⟩ := sp
  rw [build_disease_gene_map_eq] at h
  rw [mem_iff_lookup (keys_buildMap_nodup _) s ss, lookup_buildMap] at h
  by_cases he : ((gds.map fun a => (a.disease_id, a.gene_id)).filter
      fun p => p.1 == s).isEmpty
  · rw [if_pos he] at h
    cases h
  · rw [if_neg he] at h
    cases h
    rfl

theorem mem_mergedTriples (dts : List DrugTargetAssoc)
    (gds : List GeneDiseaseAssoc) (t : String × String × String) :
    t ∈ mergedTriples dts gds ↔
      (t.1, t.2.1) ∈ dtPairs dts ∧ (t.2.1, t.2.2) ∈ gdPairs gds := by
  rw [mergedTriples, List.mem_flatMap]
  constructor
  · rintro ⟨p, hp, hm⟩
    rw [List.mem_map] at hm
    obtain ⟨q, hq, heq⟩ := hm
    rw [List.mem_filter, beq_iff_eq] at hq
    obtain ⟨hq1, hq2⟩ := hq
    cases heq
    constructor
    · dsimp only
      rwa [Prod.mk.eta]
    · dsimp only
      rw [← hq2, Prod.mk.eta]
      exact hq1
  · rintro ⟨h1, h2⟩
    refine ⟨(t.1, t.2.1), h1, ?_⟩
    rw [List.mem_map]
    refine ⟨(t.2.1, t.2.2), ?_, by simp⟩
    rw [List.mem_filter, beq_iff_eq]
    exact ⟨by rwa [Prod.mk.eta], rfl⟩

theorem mem_fastKeys (dts : List DrugTargetAssoc)
    (gds : List GeneDiseaseAssoc) (d s : String) :
    (d, s) ∈ fastKeys dts gds ↔ OverlapPair dts gds d s := by
  rw [fastKeys, List.mem_dedup, List.mem_map, OverlapPair]
  constructor
  · rintro ⟨t, ht, heq⟩
    rw [mem_mergedTriples] at ht
    cases heq
    exact ⟨t.2.1, ht.1, ht.2⟩
  · rintro ⟨g, h1, h2⟩
    exact ⟨(d, g, s), (mem_mergedTriples dts gds (d, g, s)).mpr ⟨h1, h2⟩, rfl⟩

/-- The aggregated fast row of an overlapping pair is the canonical row. -/
theorem fastRow_eq_canonRow (dts : List DrugTargetAssoc)
    (gds : List GeneDiseaseAssoc) (d s : String) :
    fastRow dts gds (d, s) = canonRow dts gds d s := by
  have hgenes_mem : ∀ g, g ∈ (((mergedTriples dts gds).filter fun t =>
      t.1 == d && t.2.2 == s).map fun t => t.2.1).dedup ↔
      (d, g) ∈ dtPairs dts ∧ (g, s) ∈ gdPairs gds := by
    intro g
    rw [List.mem_dedup, List.mem_map]
    constructor
    · rintro ⟨t, ht, rfl⟩
      rw [List.mem_filter, Bool.and_eq_true, beq_iff_eq, beq_iff_eq] at ht
      obtain ⟨ht, h1, h2⟩ := ht
      rw [mem_mergedTriples] at ht
      rw [← h1, ← h2]
      exact ht
    · rintro ⟨h1, h2⟩
      refine ⟨(d, g, s), ?_, rfl⟩
      rw [List.mem_filter, Bool.and_eq_true, beq_iff_eq, beq_iff_eq]
      exact ⟨(mem_mergedTriples dts gds (d, g, s)).mpr ⟨h1, h2⟩, rfl, rfl⟩
  have hinter_mem : ∀ g, g ∈ (drugSet dts d).filter
      (fun g => decide (g ∈ diseaseSet gds s)) ↔
      (d, g) ∈ dtPairs dts ∧ (g, s) ∈ gdPairs gds := by
    intro g
    rw [List.mem_filter, decide_eq_true_eq, mem_drugSet, mem_diseaseSet]
  have hgenes_nodup : ((((mergedTriples dts gds).filter fun t =>
      t.1 == d && t.2.2 == s).map fun t => t.2.1).dedup).Nodup :=
    List.nodup_dedup _
  have hinter_nodup : ((drugSet dts d).filter
      (fun g => decide (g ∈ diseaseSet gds s))).Nodup :=
    (drugSet_nodup dts d).filter _
  obtain ⟨hlen, hsort⟩ := nodup_same_mem_sort_eq hgenes_nodup hinter_nodup
    fun g => (hgenes_mem g).trans (hinter_mem g).symm
  have hnD : ((((dtPairs dts).filter fun p => p.1 == d).map
      Prod.snd).dedup).length = (drugSet dts d).length := by
    refine ((List.perm_ext_iff_of_nodup (List.nodup_dedup _)
      (drugSet_nodup dts d)).mpr ?_).length_eq
    intro g
    rw [List.mem_dedup, List.mem_map, mem_drugSet]
    constructor
    · rintro ⟨p, hp, rfl⟩
      rw [List.mem_filter, beq_iff_eq] at hp
      obtain ⟨hp1, hp2⟩ := hp
      rw [← hp2]
      rwa [Prod.mk.eta]
    · intro h
      exact ⟨(d, g), by rw [List.mem_filter, beq_iff_eq]; exact ⟨h, rfl⟩, rfl⟩
  have hnS : ((((gdPairs gds).filter fun q => q.2 == s).map
      Prod.fst).dedup).length = (diseaseSet gds s).length := by
    refine ((List.perm_ext_iff_of_nodup (List.nodup_dedup _)
      (diseaseSet_nodup gds s)).mpr ?_).length_eq
    intro g
    rw [List.mem_dedup, List.mem_map, mem_diseaseSet]
    constructor
    · rintro ⟨q, hq, rfl⟩
      rw [List.mem_filter, beq_iff_eq] at hq
      obtain ⟨hq1, hq2⟩ := hq
      rw [← hq2]
      rwa [Prod.mk.eta]
    · intro h
      exact ⟨(g, s), by rw [List.mem_filter, beq_iff_eq]; exact ⟨h, rfl⟩, rfl⟩
  have hconv : (fun g => decide (g ∉ drugSet dts d)) =
      fun g => !(decide (g ∈ drugSet dts d)) := by
    funext g
    rw [decide_not]
  have hpart : (diseaseSet gds s).length =
      ((diseaseSet gds s).filter fun g => decide (g ∈ drugSet dts d)).length +
      ((diseaseSet gds s).filter fun g => decide (g ∉ drugSet dts d)).length := by
    rw [hconv]
    exact @List.length_eq_length_filter_add _ (diseaseSet gds s)
      fun g => decide (g ∈ drugSet dts d)
  have hcross : ((diseaseSet gds s).filter
      fun g => decide (g ∈ drugSet dts d)).length =
      ((drugSet dts d).filter fun g => decide (g ∈ diseaseSet gds s)).length := by
    refine ((List.perm_ext_iff_of_nodup ((diseaseSet_nodup gds s).filter _)
      ((drugSet_nodup dts d).filter _)).mpr ?_).length_eq
    intro g
    rw [List.mem_filter, List.mem_filter, decide_eq_true_eq, decide_eq_true_eq]
    tauto
  rw [fastRow, canonRow]
  dsimp only
  rw [hlen, hsort, hnD, hnS]
  have hul : (drugSet dts d).length + (diseaseSet gds s).length -
      ((drugSet dts d).filter fun g => decide (g ∈ diseaseSet gds s)).length =
      (drugSet dts d).length +
      ((diseaseSet gds s).filter fun g => decide (g ∉ drugSet dts d)).length := by
    omega
  rw [hul]

theorem naiveRow_ids {dp sp : String × List String} {r : OverlapRow}
    (h : naiveRow dp sp = some r) :
    r.drug_id = dp.1 ∧ r.disease_id = sp.1 := by
  rw [naiveRow] at h
  split at h
  · cases h
  · cases h
    exact ⟨rfl, rfl⟩

/-- On actual entries of the two grouped maps, the naive inner body produces
exactly the canonical row of the pair (or skips it). -/
theorem naiveRow_eq {dts : List DrugTargetAssoc} {gds : List GeneDiseaseAssoc}
    {dp sp : String × List String} (hdp : dp ∈ build_drug_target_map dts)
    (hsp : sp ∈ build_disease_gene_map gds) :
    naiveRow dp sp =
      if ((drugSet dts dp.1).filter
          fun g => decide (g ∈ diseaseSet gds sp.1)).isEmpty then none
      else some (canonRow dts gds dp.1 sp.1) := by
  have h2 := snd_of_mem_build_dt hdp
  have h3 := snd_of_mem_build_gd hsp
  obtain ⟨d, gs⟩ := dp
  obtain ⟨s, ss⟩ := sp
  dsimp only at h2 h3 ⊢
  subst h2
  subst h3
  rfl

theorem mem_naiveBody_iff (dts : List DrugTargetAssoc)
    (gds : List GeneDiseaseAssoc) (r : OverlapRow) :
    (r ∈ (build_drug_target_map dts).flatMap fun dp =>
      (build_disease_gene_map gds).filterMap fun sp => naiveRow dp sp) ↔
    ∃ d s, OverlapPair dts gds d s ∧ r = canonRow dts gds d s := by
  rw [List.mem_flatMap]
  constructor
  · rintro ⟨dp, hdp, hr⟩
    rw [List.mem_filterMap] at hr
    obtain ⟨sp, hsp, hrow⟩ := hr
    rw [naiveRow_eq hdp hsp] at hrow
    by_cases he : ((drugSet dts dp.1).filter
        fun g => decide (g ∈ diseaseSet gds sp.1)).isEmpty
    · rw [if_pos he] at hrow
      cases hrow
    · rw [if_neg he] at hrow
      cases hrow
      refine ⟨dp.1, sp.1, ?_, rfl⟩
      have hne : (drugSet dts dp.1).filter
          (fun g => decide (g ∈ diseaseSet gds sp.1)) ≠ [] := by
        intro hnil
        exact he (by rw [hnil]; rfl)
      obtain ⟨g, hg⟩ := List.exists_mem_of_ne_nil _ hne
      rw [List.mem_filter, decide_eq_true_eq, mem_drugSet, mem_diseaseSet] at hg
      exact ⟨g, hg.1, hg.2⟩
  · rintro ⟨d, s, ⟨g, hdg, hgs⟩, rfl⟩
    have hdp : (d, drugSet dts d) ∈ build_drug_target_map dts := by
      rw [build_drug_target_map_eq,
        mem_iff_lookup (keys_buildMap_nodup _)]
      have := build_dt_lookup_of_pair hdg
      rwa [build_drug_target_map_eq] at this
    have hsp : (s, diseaseSet gds s) ∈ build_disease_gene_map gds := by
      rw [build_disease_gene_map_eq,
        mem_iff_lookup (keys_buildMap_nodup _)]
      have := build_gd_lookup_of_pair ((mem_gdPairs_swap gds g s).mp hgs)
      rwa [build_disease_gene_map_eq] at this
    refine ⟨(d, drugSet dts d), hdp, ?_⟩
    rw [List.mem_filterMap]
    refine ⟨(s, diseaseSet gds s), hsp, ?_⟩
    rw [naiveRow_eq hdp hsp]
    rw [if_neg ?_]
    · intro he
      rw [List.isEmpty_iff] at he
      have hgmem : g ∈ (drugSet dts (d, drugSet dts d).1).filter
          (fun g => decide (g ∈ diseaseSet gds (s, diseaseSet gds s).1)) := by
        rw [List.mem_filter, decide_eq_true_eq]
        exact ⟨(mem_drugSet dts d g).mpr hdg, (mem_diseaseSet gds s g).mpr hgs⟩
      rw [he] at hgmem
      cases hgmem

theorem mem_fastBody_iff (dts : List DrugTargetAssoc)
    (gds : List GeneDiseaseAssoc) (r : OverlapRow) :
    r ∈ (fastKeys dts gds).map (fastRow dts gds) ↔
      ∃ d s, OverlapPair dts gds d s ∧ r = canonRow dts gds d s := by
  rw [List.mem_map]
  constructor
  · rintro ⟨k, hk, rfl⟩
    obtain ⟨d, s⟩ := k
    rw [mem_fastKeys] at hk
    exact ⟨d, s, hk, fastRow_eq_canonRow dts gds d s⟩
  · rintro ⟨d, s, h, rfl⟩
    exact ⟨(d, s), (mem_fastKeys dts gds d s).mpr h,
      fastRow_eq_canonRow dts gds d s⟩

theorem nodup_naiveBody (dts : List DrugTargetAssoc)
    (gds : List GeneDiseaseAssoc) :
    ((build_drug_target_map dts).flatMap fun dp =>
      (build_disease_gene_map gds).filterMap fun sp => naiveRow dp sp).Nodup := by
  apply nodup_flatMap_keyed _ _ (fun dp => dp.1) (fun r => r.drug_id)
  · rw [build_drug_target_map_eq]
    exact keys_buildMap_nodup _
  · intro dp r hr
    rw [List.mem_filterMap] at hr
    obtain ⟨sp, _, hrow⟩ := hr
    exact (naiveRow_ids hrow).1
  · intro dp
    apply nodup_filterMap_keyed _ _ (fun sp => sp.1) (fun r => r.disease_id)
    · rw [build_disease_gene_map_eq]
      exact keys_buildMap_nodup _
    · intro sp r hrow
      exact (naiveRow_ids hrow).2

theorem nodup_fastBody (dts : List DrugTargetAssoc)
    (gds : List GeneDiseaseAssoc) :
    ((fastKeys dts gds).map (fastRow dts gds)).Nodup := by
  apply List.Nodup.map_on ?_ (List.nodup_dedup _)
  intro k _ k' _ heq
  have h1 : k.1 = k'.1 := congrArg OverlapRow.drug_id heq
  have h2 : k.2 = k'.2 := congrArg OverlapRow.disease_id heq
  exact Prod.ext h1 h2

/-- **C10.** For every list of drug-target and gene-disease associations
(identifiers are strings, so the "no null identifiers" hypothesis is
vacuous in this model), the vectorized `compute_overlap_table_fast` returns
the same table — the same rows with the same `drug_id`, `disease_id`,
`n_overlap`, `overlapping_genes` and `jaccard`, in the same order — as the
naive `compute_overlap_table` applied to the maps built by
`build_drug_target_map` and `build_disease_gene_map`. -/
theorem overlap_fast_refines_naive :
    ∀ (dts : List DrugTargetAssoc) (gds : List GeneDiseaseAssoc),
      compute_overlap_table (build_drug_target_map dts)
          (build_disease_gene_map gds) =
        compute_overlap_table_fast dts gds := by
  intro dts gds
  rw [compute_overlap_table, compute_overlap_table_fast]
  by_cases hempty : (dts.isEmpty || gds.isEmpty) = true
  · rw [if_pos hempty]
    have hnil : ((build_drug_target_map dts).flatMap fun dp =>
        (build_disease_gene_map gds).filterMap fun sp => naiveRow dp sp) = [] := by
      rw [List.eq_nil_iff_forall_not_mem]
      intro r hr
      rw [mem_naiveBody_iff] at hr
      obtain ⟨d, s, ⟨g, hdg, hgs⟩, -⟩ := hr
      rw [Bool.or_eq_true] at hempty
      rcases hempty with h | h
      · rw [List.isEmpty_iff] at h
        subst h
        rw [dtPairs] at hdg
        cases hdg
      · rw [List.isEmpty_iff] at h
        subst h
        rw [gdPairs] at hgs
        cases hgs
    rw [hnil]
    rfl
  · rw [if_neg hempty]
    by_cases hm : (mergedTriples dts gds).isEmpty = true
    · rw [if_pos hm]
      have hnil : ((build_drug_target_map dts).flatMap fun dp =>
          (build_disease_gene_map gds).filterMap fun sp => naiveRow dp sp)
          = [] := by
        rw [List.eq_nil_iff_forall_not_mem]
        intro r hr
        rw [mem_naiveBody_iff] at hr
        obtain ⟨d, s, ⟨g, hdg, hgs⟩, -⟩ := hr
        rw [List.isEmpty_iff] at hm
        have : (d, g, s) ∈ mergedTriples dts gds :=
          (mem_mergedTriples dts gds (d, g, s)).mpr ⟨hdg, hgs⟩
        rw [hm] at this
        cases this
      rw [hnil]
      rfl
    · rw [if_neg hm]
      apply sortRows_eq_of_perm
      · rw [List.perm_ext_iff_of_nodup (nodup_naiveBody dts gds)
          (nodup_fastBody dts gds)]
        intro r
        rw [mem_naiveBody_iff, mem_fastBody_iff]
      · intro a ha b hb hd hs
        rw [mem_naiveBody_iff] at ha hb
        obtain ⟨d1, s1, -, rfl⟩ := ha
        obtain ⟨d2, s2, -, rfl⟩ := hb
        obtain rfl : d1 = d2 := hd
        obtain rfl : s1 = s2 := hs
        rfl

end DDH
